import Mathlib

/-!
# DreamParallax: the scroll-driven glyph scene

A shallow embedding of `src/src/components/DreamParallax.jsx`.

Numbers are rationals.  The scene model (`World`, `animate`, ...) reads the arithmetic
of the source as exact: every constant (`0.08`, `0.1`, `0.5`, `6.0`, ...) is the decimal
fraction it is written as and no operation rounds.  The smoothing step and the
per-glyph update are given a second time with the IEEE-754 double rounding of the
source (`smoothingStep64`, `updateLetter64`), and what is stated about their exact
values is stated there.  Objects that the component shares by reference (geometries,
materials, the camera position) live in stores of the `World` and are referred to by
handle.
-/

namespace DreamParallax

/-! ## Library arithmetic used by the component -/

/-- Three-component vector, `THREE.Vector3` (also used for Euler angles and scale). -/
structure Vector3 where
  x : ℚ
  y : ℚ
  z : ℚ
deriving DecidableEq, Repr

/-- Modelled from the spec: `THREE.MathUtils.lerp(x, y, t)` is a three.js library
function that is not under `src/`.  The spec calls it linear interpolation from the
first value to the second with factor `t`; the library computes `(1 - t) * x + t * y`. -/
def lerp (x y t : ℚ) : ℚ := (1 - t) * x + t * y

/-- Modelled from the spec: `THREE.MathUtils.smoothstep(x, min, max)` is a three.js
library function that is not under `src/`.  The spec calls it a cubic ease function
mapping an input range to [0,1] with zero-slope endpoints, bounded for inputs outside
the range; this is the library's definition: `0` at or below `min`, `1` at or above
`max`, and `t * t * (3 - 2 * t)` for `t = (x - min) / (max - min)` in between. -/
def smoothstep (x lo hi : ℚ) : ℚ :=
  if x ≤ lo then 0
  else if x ≥ hi then 1
  else
    let t := (x - lo) / (hi - lo)
    t * t * (3 - 2 * t)

/-- GLSL builtin `clamp(x, minVal, maxVal)`, defined as `min(max(x, minVal), maxVal)`. -/
def clamp (x minVal maxVal : ℚ) : ℚ := min (max x minVal) maxVal

/-- Alpha channel written by `fragmentShader` (lines 144-149), as a function of the
sharpened rim factor and the specular sum accumulated over the lights:
`alpha = 0.15 + 0.6 * rimFactor; alpha = clamp(alpha + totalSpecular * 0.5, 0.0, 1.0)`. -/
def fragmentAlpha (rimFactor totalSpecular : ℚ) : ℚ :=
  let alpha := 0.15 + 0.6 * rimFactor
  clamp (alpha + totalSpecular * 0.5) 0 1

/-! ## Scene objects -/

/-- Reference to a `Vector3` object that is shared rather than copied.  The only such
object in the component is `camera.position`, which every material's `uCameraPosition`
uniform holds by reference (line 55). -/
inductive VecRef where
  | cameraPosition
deriving DecidableEq, Repr

/-- Uniform state of one `THREE.ShaderMaterial` (the `uniforms` object of lines 33-57),
together with the number of times `dispose()` has been called on the material.  Every
uniform but `uCameraPosition` holds a number or objects created by `new` inside the
factory call, so the material owns their values (colours are their hex codes);
`uCameraPosition` holds a reference to an object created elsewhere. -/
structure Material where
  uAmbientColor : ℕ
  uAmbientIntensity : ℚ
  uPointLightPositions : List Vector3
  uPointLightColors : List ℕ
  uPointLightIntensities : List ℚ
  uNumLights : ℕ
  uTime : ℚ
  uCameraPosition : VecRef
  disposeCalls : ℕ
deriving DecidableEq, Repr

/-- Axis-aligned box with corners `min` and `max` (`THREE.Box3`). -/
structure Box3 where
  min : Vector3
  max : Vector3
deriving DecidableEq, Repr

/-- Vertex buffer of a `THREE.BufferGeometry`, its cached bounding box, and the number
of times `dispose()` has been called on it. -/
structure Geometry where
  vertices : List Vector3
  boundingBox : Option Box3
  disposeCalls : ℕ
deriving DecidableEq, Repr

/-- A `THREE.Mesh`: handles of its geometry and material, and its local position. -/
structure Mesh where
  geometry : ℕ
  material : ℕ
  position : Vector3
deriving DecidableEq, Repr

/-- A `THREE.Group` with its local transform and its child meshes. -/
structure Group where
  position : Vector3
  rotation : Vector3
  scale : Vector3
  children : List Mesh
deriving DecidableEq, Repr

/-- One entry of `letterData` (lines 301-311). -/
structure LetterDatum where
  group : Group
  material : ℕ
  index : ℕ
  targetX : ℚ
  targetY : ℚ
  baseZ : ℚ
  randomRotX : ℚ
  randomRotY : ℚ
  randomRotZ : ℚ
deriving DecidableEq, Repr

/-- The two callbacks the effect registers on `window`. -/
inductive Handler where
  | handleScroll
  | handleResize
deriving DecidableEq, Repr

/-- An event-listener registration on `window`.  The DOM identifies a registration by
event type, callback and the capture flag; `passive` is not part of the identity. -/
structure Listener where
  type : String
  callback : Handler
  capture : Bool
deriving DecidableEq, Repr

/-- Everything the effect closes over, plus the parts of the browser it touches:
the stores of geometries and materials, the shared camera position, the scene's
children (as indices into `letterData`), the scroll state, the listeners registered on
`window`, the number of `animate` callbacks waiting for the next display refresh, and
counters for `renderer.render` and `renderer.dispose`. -/
structure World where
  geometries : List Geometry
  materials : List Material
  cameraPosition : Vector3
  sceneChildren : List ℕ
  letterData : List LetterDatum
  scrollProgress : ℚ
  targetScroll : ℚ
  listeners : List Listener
  pendingFrames : ℕ
  renderCalls : ℕ
  rendererDisposeCalls : ℕ
deriving DecidableEq, Repr

/-! ## The frame callback -/

/-- Body of the `letterData.forEach` callback of `animate` that moves one glyph
(lines 358-376): position by `lerp` on `animationProgress`, rotation from the raw
`scrollProgress`.  Exact arithmetic; `updateLetter64` is the same update on doubles. -/
def updateLetter (scrollProgress animationProgress : ℚ) (d : LetterDatum) : LetterDatum :=
  { d with
    group :=
      { d.group with
        position :=
          { x := lerp 0 d.targetX animationProgress
            y := lerp (-20) d.targetY animationProgress
            z := lerp (-10) d.baseZ animationProgress }
        rotation :=
          { x := d.randomRotX + scrollProgress * 6.0
            y := d.randomRotY + scrollProgress * 7.0
            z := d.randomRotZ + scrollProgress * 5.0 } } }

/-- Read the `Vector3` a reference points to. -/
def World.deref (w : World) : VecRef → Vector3
  | .cameraPosition => w.cameraPosition

/-- In-place `Vector3.copy` on the object a reference points to. -/
def World.copyInto (w : World) (r : VecRef) (v : Vector3) : World :=
  match r with
  | .cameraPosition => { w with cameraPosition := v }

/-- Uniform update of the `forEach` callback of `animate` for one glyph (lines 378-382):
`material.uniforms.uTime.value = elapsedTime` and
`material.uniforms.uCameraPosition.value.copy(camera.position)`. -/
def updateUniforms (elapsedTime : ℚ) (w : World) (d : LetterDatum) : World :=
  let w1 : World :=
    { w with materials := w.materials.modify (fun m => { m with uTime := elapsedTime }) d.material }
  match w1.materials.get? d.material with
  | some m => w1.copyInto m.uCameraPosition w1.cameraPosition
  | none => w1

/-- One run of `animate` (lines 334-387).  `elapsedTime` is what
`clock.getElapsedTime()` returns in this frame.  Exact arithmetic; `smoothingStep64` is
the smoothing line on doubles. -/
def animate (elapsedTime : ℚ) (w : World) : World :=
  let scrollProgress := w.scrollProgress + (w.targetScroll - w.scrollProgress) * 0.08
  let animationProgress := smoothstep scrollProgress 0.1 0.5
  let w1 : World :=
    { w with
      pendingFrames := w.pendingFrames + 1
      scrollProgress := scrollProgress
      letterData := w.letterData.map (updateLetter scrollProgress animationProgress) }
  let w2 := w1.letterData.foldl (updateUniforms elapsedTime) w1
  { w2 with renderCalls := w2.renderCalls + 1 }

/-- The browser's display refresh: the callbacks queued by `requestAnimationFrame` are
taken off the queue and run.  `animate` is the only callback the component ever queues,
so the queue is a count. -/
def displayRefresh (elapsedTime : ℚ) (w : World) : World :=
  (animate elapsedTime)^[w.pendingFrames] { w with pendingFrames := 0 }

/-! ## Scroll handling -/

/-- JavaScript `/` restricted to results that are numbers of the model: `none` stands
for the `NaN` or `±Infinity` a zero divisor produces. -/
def jsDiv (a b : ℚ) : Option ℚ := if b = 0 then none else some (a / b)

/-- The scroll listener `handleScroll` (lines 324-328); `scrollY`, `scrollHeight` and
`innerHeight` are `window.scrollY`, `document.documentElement.scrollHeight` and
`window.innerHeight` at the time of the event.  `none` when `targetScroll` becomes
`NaN` or `±Infinity`. -/
def handleScroll (scrollY scrollHeight innerHeight : ℚ) (w : World) : Option World :=
  let maxScroll := scrollHeight - innerHeight
  (jsDiv scrollY maxScroll).map fun v => { w with targetScroll := v }

/-! ## Glyph outlines and `createLetter` -/

/-- Path commands of `THREE.Path` used by the outlines. -/
inductive PathCmd where
  | moveTo (x y : ℚ)
  | lineTo (x y : ℚ)
  | bezierCurveTo (aCP1x aCP1y aCP2x aCP2y aX aY : ℚ)
deriving DecidableEq, Repr

/-- A `THREE.Shape`: the outer path and the hole paths. -/
structure Shape where
  curves : List PathCmd
  holes : List (List PathCmd)
deriving DecidableEq, Repr

/-- The outline chosen by the `if` chain of `createLetter` (lines 174-261); `none` is the
`undefined` that `shape` stays at for any other letter. -/
def letterShape (letter : String) : Option Shape :=
  if letter = "D" then
    some
      { curves :=
          [.moveTo 0 0, .lineTo 0 5, .lineTo 2 5, .bezierCurveTo 4.2 5 4.8 4 4.8 2.5,
           .bezierCurveTo 4.8 1 4.2 0 2 0, .lineTo 0 0]
        holes :=
          [[.moveTo 0.9 0.8, .lineTo 2 0.8, .bezierCurveTo 3.2 0.8 3.8 1.5 3.8 2.5,
            .bezierCurveTo 3.8 3.5 3.2 4.2 2 4.2, .lineTo 0.9 4.2, .lineTo 0.9 0.8]] }
  else if letter = "R" then
    some
      { curves :=
          [.moveTo 0 0, .lineTo 0 5, .lineTo 2.5 5, .bezierCurveTo 4.2 5 4.8 4.2 4.8 3.5,
           .bezierCurveTo 4.8 2.8 4.2 2.3 3 2.2, .lineTo 5 0, .lineTo 3.5 0, .lineTo 1.8 2,
           .lineTo 0.9 2, .lineTo 0.9 0, .lineTo 0 0]
        holes :=
          [[.moveTo 0.9 2.9, .lineTo 2.5 2.9, .bezierCurveTo 3.3 2.9 3.8 3.3 3.8 3.7,
            .bezierCurveTo 3.8 4.1 3.3 4.2 2.5 4.2, .lineTo 0.9 4.2, .lineTo 0.9 2.9]] }
  else if letter = "E" then
    some
      { curves :=
          [.moveTo 0 0, .lineTo 0 5, .lineTo 4.2 5, .lineTo 4.2 4.2, .lineTo 0.9 4.2,
           .lineTo 0.9 2.9, .lineTo 3.8 2.9, .lineTo 3.8 2.1, .lineTo 0.9 2.1, .lineTo 0.9 0.8,
           .lineTo 4.2 0.8, .lineTo 4.2 0, .lineTo 0 0]
        holes := [] }
  else if letter = "A" then
    some
      { curves :=
          [.moveTo 2 5, .lineTo 3 5, .lineTo 5.2 0, .lineTo 4.1 0, .lineTo 3.6 1.3,
           .lineTo 1.4 1.3, .lineTo 0.9 0, .lineTo (-0.2) 0, .lineTo 2 5]
        holes := [[.moveTo 1.8 2.1, .lineTo 3.2 2.1, .lineTo 2.5 4.1, .lineTo 1.8 2.1]] }
  else if letter = "M" then
    some
      { curves :=
          [.moveTo 0 0, .lineTo 0 5, .lineTo 0.9 5, .lineTo 0.9 1.5, .lineTo 2.5 4.7,
           .lineTo 3.5 4.7, .lineTo 5.1 1.5, .lineTo 5.1 5, .lineTo 6 5, .lineTo 6 0,
           .lineTo 4.8 0, .lineTo 3 3.5, .lineTo 1.2 0, .lineTo 0 0]
        holes := [] }
  else none

/-- Options object of `THREE.ExtrudeGeometry`. -/
structure ExtrudeSettings where
  depth : ℚ
  bevelEnabled : Bool
  bevelThickness : ℚ
  bevelSize : ℚ
  bevelSegments : ℕ
  curveSegments : ℕ
deriving DecidableEq, Repr

/-- The constant `extrudeSettings` (lines 163-170). -/
def extrudeSettings : ExtrudeSettings :=
  { depth := 2
    bevelEnabled := true
    bevelThickness := 0.3
    bevelSize := 0.2
    bevelSegments := 10
    curveSegments := 20 }

/-- What the effect takes from outside the component: the successive results of
`Math.random()`, the constant `Math.PI`, and the vertex buffer (never empty) that
`new THREE.ExtrudeGeometry(shape, settings)` builds for an outline.  The extrusion is
three.js library code and is not modelled. -/
structure Env where
  random : ℕ → ℚ
  PI : ℚ
  extrude : Option Shape → ExtrudeSettings → Vector3 × List Vector3

/-- Modelled from the spec: `geometry.computeBoundingBox()` is a three.js library
method that is not under `src/`.  It yields the bounding box of the solid, the
componentwise minimum and maximum of the vertices of its buffer `v :: vs`. -/
def computeBoundingBox (v : Vector3) (vs : List Vector3) : Box3 :=
  vs.foldl
    (fun b p =>
      { min := { x := min b.min.x p.x, y := min b.min.y p.y, z := min b.min.z p.z }
        max := { x := max b.max.x p.x, y := max b.max.y p.y, z := max b.max.z p.z } })
    { min := v, max := v }

/-- The material factory `createAdvancedGradientMaterial` (lines 31-160): allocates a new
material with the fixed ambient term and the three fixed point lights, whose `uTime` is
0 and whose `uCameraPosition` value is the `camera.position` object itself.  Returns the
new material's handle. -/
def createAdvancedGradientMaterial (w : World) : ℕ × World :=
  (w.materials.length,
    { w with
      materials :=
        w.materials ++
          [{ uAmbientColor := 0xffffff
             uAmbientIntensity := 0.5
             uPointLightPositions :=
               [{ x := 10, y := 0, z := 8 }, { x := -10, y := 5, z := 8 }, { x := 0, y := -5, z := 5 }]
             uPointLightColors := [0xff5733, 0x6b46c1, 0xff1493]
             uPointLightIntensities := [5.0, 5.0, 4.5]
             uNumLights := 3
             uTime := 0
             uCameraPosition := VecRef.cameraPosition
             disposeCalls := 0 }] })

/-- Lines 263-277 of `createLetter`: extrude `shape`, create the material, build the
mesh, centre it on the geometry's bounding box, wrap it in a group.  Returns the group
and the material handle. -/
def createLetterOfShape (env : Env) (shape : Option Shape) (w : World) : (Group × ℕ) × World :=
  let buffer := env.extrude shape extrudeSettings
  let geometry := w.geometries.length
  let (material, w1) := createAdvancedGradientMaterial w
  let boundingBox := computeBoundingBox buffer.1 buffer.2
  let w2 : World :=
    { w1 with
      geometries :=
        w1.geometries ++
          [{ vertices := buffer.1 :: buffer.2, boundingBox := some boundingBox, disposeCalls := 0 }] }
  let centerX := (boundingBox.max.x + boundingBox.min.x) / 2
  let centerY := (boundingBox.max.y + boundingBox.min.y) / 2
  let mesh : Mesh :=
    { geometry := geometry, material := material, position := { x := -centerX, y := -centerY, z := 0 } }
  let group : Group :=
    { position := { x := 0, y := 0, z := 0 }
      rotation := { x := 0, y := 0, z := 0 }
      scale := { x := 1, y := 1, z := 1 }
      children := [mesh] }
  ((group, material), w2)

/-- The glyph builder `createLetter(letter)` (lines 173-278). -/
def createLetter (env : Env) (letter : String) (w : World) : (Group × ℕ) × World :=
  createLetterOfShape env (letterShape letter) w

/-! ## Scene assembly, mount and unmount -/

/-- The alphabet `letters` (line 281). -/
def letters : List String := ["D", "R", "E", "A", "M"]

/-- The authored layout `positions` (lines 283-289), as `(x, y)` pairs. -/
def positions : List (ℚ × ℚ) := [(-19, 4), (-10, -5), (2, 5), (12, -2), (22, 3)]

/-- Body of `letters.forEach((char, i) => ...)` (lines 291-312).  The three
`Math.random()` calls of glyph `i` are draws `3 i`, `3 i + 1` and `3 i + 2`. -/
def addLetter (env : Env) (w : World) (ic : ℕ × String) : World :=
  let i := ic.1
  let ((group, material), w1) := createLetter env ic.2 w
  let group : Group :=
    { group with
      position := { x := 0, y := -20, z := -(i : ℚ) * 2 }
      scale := { x := 1.25, y := 1.25, z := 1.25 } }
  { w1 with
    sceneChildren := w1.sceneChildren ++ [i]
    letterData :=
      w1.letterData ++
        [{ group := group
           material := material
           index := i
           targetX := (positions.getD i (0, 0)).1
           targetY := (positions.getD i (0, 0)).2
           baseZ := -(i : ℚ) * 2
           randomRotX := (env.random (3 * i) - 0.5) * env.PI
           randomRotY := (env.random (3 * i + 1) - 0.5) * env.PI
           randomRotZ := (env.random (3 * i + 2) - 0.5) * env.PI }] }

/-- `window.addEventListener`: a registration identical to an existing one is ignored. -/
def addEventListener (l : Listener) (ls : List Listener) : List Listener :=
  if l ∈ ls then ls else ls ++ [l]

/-- `window.removeEventListener`: removes the matching registration, if any. -/
def removeEventListener (l : Listener) (ls : List Listener) : List Listener :=
  ls.erase l

/-- Registration made by `window.addEventListener("scroll", handleScroll, { passive: true })`. -/
def scrollListener : Listener := { type := "scroll", callback := Handler.handleScroll, capture := false }

/-- Registration made by `window.addEventListener("resize", handleResize)`. -/
def resizeListener : Listener := { type := "resize", callback := Handler.handleResize, capture := false }

/-- The world before the effect runs: nothing allocated, the camera at `(0, 0, 35)`
(line 20), and the listeners `pre` that are already registered on `window`. -/
def initialWorld (pre : List Listener) : World :=
  { geometries := []
    materials := []
    cameraPosition := { x := 0, y := 0, z := 35 }
    sceneChildren := []
    letterData := []
    scrollProgress := 0
    targetScroll := 0
    listeners := pre
    pendingFrames := 0
    renderCalls := 0
    rendererDisposeCalls := 0 }

/-- The loop `letters.forEach(...)` (lines 291-312), run on the world before the effect. -/
def assembleLetters (env : Env) (pre : List Listener) : World :=
  letters.enum.foldl (addLetter env) (initialWorld pre)

/-- The effect body (lines 8-396) when the canvas is mounted: build the five glyphs,
register the scroll listener, run `animate()` once, register the resize listener.
`t0` is the clock reading of that first `animate()` call. -/
def setup (env : Env) (pre : List Listener) (t0 : ℚ) : World :=
  let w1 := assembleLetters env pre
  let w2 : World := { w1 with listeners := addEventListener scrollListener w1.listeners }
  let w3 := animate t0 w2
  { w3 with listeners := addEventListener resizeListener w3.listeners }

/-- The effect (lines 8-410): `none` when `canvasRef.current` is missing (line 9, the
effect returns without a cleanup function), otherwise the world after `setup`. -/
def effect (env : Env) (canvas : Bool) (pre : List Listener) (t0 : ℚ) : Option World :=
  if canvas then some (setup env pre t0) else none

/-- The inner callback of the cleanup, `child.geometry.dispose(); child.material.dispose()`
(lines 402-405). -/
def disposeChild (w : World) (child : Mesh) : World :=
  { w with
    geometries :=
      w.geometries.modify (fun g => { g with disposeCalls := g.disposeCalls + 1 }) child.geometry
    materials :=
      w.materials.modify (fun m => { m with disposeCalls := m.disposeCalls + 1 }) child.material }

/-- The outer callback of the cleanup (lines 401-407): dispose the children of the
group, then `scene.remove(group)`. -/
def cleanupLetter (w : World) (d : LetterDatum) : World :=
  let w1 := d.group.children.foldl disposeChild w
  { w1 with sceneChildren := w1.sceneChildren.erase d.index }

/-- The cleanup function returned by the effect (lines 398-409). -/
def cleanup (w : World) : World :=
  let w1 : World := { w with listeners := removeEventListener scrollListener w.listeners }
  let w2 : World := { w1 with listeners := removeEventListener resizeListener w1.listeners }
  let w3 := w2.letterData.foldl cleanupLetter w2
  { w3 with rendererDisposeCalls := w3.rendererDisposeCalls + 1 }

/-- What can happen between mount and unmount: a scroll event with the values the
handler reads, or a display refresh with the clock reading of that frame.  (A resize
event changes only the camera projection and the renderer size, which the world does
not record.) -/
inductive Event where
  | scroll (scrollY scrollHeight innerHeight : ℚ)
  | refresh (elapsedTime : ℚ)
deriving DecidableEq, Repr

/-- Dispatch of one event: a scroll event runs `handleScroll` if it is registered. -/
def step (w : World) : Event → Option World
  | .scroll scrollY scrollHeight innerHeight =>
      if scrollListener ∈ w.listeners then handleScroll scrollY scrollHeight innerHeight w
      else some w
  | .refresh elapsedTime => some (displayRefresh elapsedTime w)

/-- Dispatch of a sequence of events, `none` as soon as one of them leaves the model. -/
def run (w : World) : List Event → Option World
  | [] => some w
  | e :: es => (step w e).bind fun w1 => run w1 es

/-! ## Sample inputs and observations used in the statements -/

/-- A glyph used to instantiate the statements below: target `(2, 5)`, base depth `-4`. -/
def sampleLetter : LetterDatum :=
  { group :=
      { position := { x := 0, y := -20, z := -4 }
        rotation := { x := 0, y := 0, z := 0 }
        scale := { x := 1.25, y := 1.25, z := 1.25 }
        children := [] }
    material := 0
    index := 2
    targetX := 2
    targetY := 5
    baseZ := -4
    randomRotX := 1
    randomRotY := -1
    randomRotZ := 1 / 2 }

/-- A one-glyph world with the given scroll state. -/
def sampleWorld (scrollProgress targetScroll : ℚ) : World :=
  { initialWorld [] with
    materials :=
      [{ uAmbientColor := 0xffffff
         uAmbientIntensity := 0.5
         uPointLightPositions :=
           [{ x := 10, y := 0, z := 8 }, { x := -10, y := 5, z := 8 }, { x := 0, y := -5, z := 5 }]
         uPointLightColors := [0xff5733, 0x6b46c1, 0xff1493]
         uPointLightIntensities := [5.0, 5.0, 4.5]
         uNumLights := 3
         uTime := 0
         uCameraPosition := VecRef.cameraPosition
         disposeCalls := 0 }]
    letterData := [sampleLetter]
    scrollProgress := scrollProgress
    targetScroll := targetScroll }

/-- Target coordinates of the glyphs, in `letterData` order. -/
def targets (w : World) : List (ℚ × ℚ) := w.letterData.map (fun d => (d.targetX, d.targetY))

/-- An environment used to instantiate the statements: every `Math.random()` draw is
`1/2`, `Math.PI` is `355/113`, and the extrusion of any outline is a single vertex. -/
def sampleEnv : Env :=
  { random := fun _ => 1 / 2
    PI := 355 / 113
    extrude := fun _ _ => ({ x := 0, y := 0, z := 0 }, []) }

/-- Geometry handles of the meshes, glyph by glyph. -/
def geometryHandles (w : World) : List (List ℕ) :=
  w.letterData.map (fun d => d.group.children.map (fun c => c.geometry))

/-- Material handles of the meshes, glyph by glyph. -/
def materialHandles (w : World) : List (List ℕ) :=
  w.letterData.map (fun d => d.group.children.map (fun c => c.material))

/-- Number of `dispose()` calls received by each geometry, in allocation order. -/
def geometryDisposals (w : World) : List ℕ := w.geometries.map (fun g => g.disposeCalls)

/-- Number of `dispose()` calls received by each material, in allocation order. -/
def materialDisposals (w : World) : List ℕ := w.materials.map (fun m => m.disposeCalls)

/-- What holds of the mounted scene from `setup` until `cleanup`: glyph `i` has one mesh,
with geometry `i` and material `i`; five geometries and five materials exist and none
has been disposed; the listeners are those present before, then scroll, then resize. -/
structure Mounted (pre : List Listener) (w : World) : Prop where
  geometryHandles_eq : geometryHandles w = [[0], [1], [2], [3], [4]]
  materialHandles_eq : materialHandles w = [[0], [1], [2], [3], [4]]
  geometryDisposals_eq : geometryDisposals w = [0, 0, 0, 0, 0]
  materialDisposals_eq : materialDisposals w = [0, 0, 0, 0, 0]
  listeners_eq : w.listeners = pre ++ [scrollListener, resizeListener]

/-- Dispose counters after one `dispose()` on each handle of `hs`, glyph by glyph. -/
def bumpAll (hs : List (List ℕ)) (counts : List ℕ) : List ℕ :=
  hs.foldl (fun cs h => h.foldl (fun cs n => cs.modify (fun c => c + 1) n) cs) counts

/-! ## Midpoints of the outline and of the solid -/

/-- End point of a path command. -/
def PathCmd.endPoint : PathCmd → ℚ × ℚ
  | .moveTo x y => (x, y)
  | .lineTo x y => (x, y)
  | .bezierCurveTo _ _ _ _ x y => (x, y)

/-- Midpoint of the bounding box of a list of 2D points (`none` for no points). -/
def boxMidpoint : List (ℚ × ℚ) → Option (ℚ × ℚ)
  | [] => none
  | p :: ps =>
    some
      ((ps.foldl (fun m q => max m q.1) p.1 + ps.foldl (fun m q => min m q.1) p.1) / 2,
        (ps.foldl (fun m q => max m q.2) p.2 + ps.foldl (fun m q => min m q.2) p.2) / 2)

/-- Midpoint of the bounding box of the un-extruded outline, in the words of the spec.
The box is taken over the end points of the outer path's segments: it is the outline's
bounding box whenever the outline is made of straight segments, or its curved segments
stay inside the box of their end points (as in the five authored outlines). -/
def outlineMidpoint (s : Shape) : Option (ℚ × ℚ) :=
  boxMidpoint (s.curves.map PathCmd.endPoint)

/-- The point of the geometry's (and so the outline's) X/Y coordinate frame that lies at
the origin of the group.  The mesh is the group's only child and is only translated, so
the geometry point `p` appears in the group at `p + mesh.position`, and the group's
origin is the geometry point `-mesh.position`. -/
def Group.originInGeometry (g : Group) : Option (ℚ × ℚ) :=
  match g.children with
  | [mesh] => some (-mesh.position.x, -mesh.position.y)
  | _ => none

/-- A synthetic outline of straight segments with bounding box `[0,5] × [0,7]`:
the pentagon `(0,0), (1,0), (5,3), (2,7), (0,7)`. -/
def pentagon : Shape :=
  { curves := [.moveTo 0 0, .lineTo 1 0, .lineTo 5 3, .lineTo 2 7, .lineTo 0 7, .lineTo 0 0]
    holes := [] }

/-- The extreme vertex rings of the solid that the bevelled extrusion of `pentagon`
has under `extrudeSettings` (depth 2, bevel thickness 0.3, bevel size 0.2): the
outline itself at `z = -0.3` and `z = 2.3`, and at `z = 0` and `z = 2` the outline grown
by the bevel size, every edge displaced outwards by 0.2 (the rings of the intermediate
bevel segments lie between these).  The corner `(5,3)`, where two slanted edges meet at
a right angle, moves by `0.2 * (7/5, -1/5)`; the left edge moves by `0.2`. -/
def bevelledPentagon : Vector3 × List Vector3 :=
  ({ x := 0, y := 0, z := -0.3 },
    [{ x := 1, y := 0, z := -0.3 }, { x := 5, y := 3, z := -0.3 }, { x := 2, y := 7, z := -0.3 },
     { x := 0, y := 7, z := -0.3 },
     { x := -0.2, y := -0.2, z := 0 }, { x := 16 / 15, y := -0.2, z := 0 },
     { x := 5.28, y := 2.96, z := 0 }, { x := 2.1, y := 7.2, z := 0 }, { x := -0.2, y := 7.2, z := 0 },
     { x := -0.2, y := -0.2, z := 2 }, { x := 16 / 15, y := -0.2, z := 2 },
     { x := 5.28, y := 2.96, z := 2 }, { x := 2.1, y := 7.2, z := 2 }, { x := -0.2, y := 7.2, z := 2 },
     { x := 0, y := 0, z := 2.3 }, { x := 1, y := 0, z := 2.3 }, { x := 5, y := 3, z := 2.3 },
     { x := 2, y := 7, z := 2.3 }, { x := 0, y := 7, z := 2.3 }])

/-- An environment whose extrusion returns `bevelledPentagon`. -/
def pentagonEnv : Env :=
  { random := fun _ => 1 / 2
    PI := 355 / 113
    extrude := fun _ _ => bevelledPentagon }

/-! ## Double-precision arithmetic

The JavaScript numbers of the source are IEEE-754 binary64 values.  The definitions
above read its arithmetic as exact; the ones below round every operation the way the
source does, for the two computations whose exact identities do not survive rounding:
the smoothing step and the per-glyph update. -/

/-- Round to the nearest integer, a tie going to the even one. -/
def roundHalfEven (q : ℚ) : ℤ :=
  if q - ⌊q⌋ < 1 / 2 then ⌊q⌋
  else if 1 / 2 < q - ⌊q⌋ then ⌊q⌋ + 1
  else if ⌊q⌋ % 2 = 0 then ⌊q⌋ else ⌊q⌋ + 1

/-- Exponent of the spacing of the doubles around `x`: 52 below the exponent of `x` (a
53-bit significand), and never below -1074 (the subnormal range). -/
def quantumExp (x : ℚ) : ℤ := max (Int.log 2 |x| - 52) (-1074)

/-- Rounding of an exact result to a double, IEEE-754 round-to-nearest, ties-to-even:
the multiple of the spacing around `x` nearest to `x`.  Results beyond the largest
finite double, which the source turns into `±Infinity`, are outside the model. -/
def roundDouble (x : ℚ) : ℚ := roundHalfEven (x / 2 ^ quantumExp x) * 2 ^ quantumExp x

/-- The rational `x` is the value of a double: an integer below `2 ^ 53` in magnitude
times a power of two not below `2 ^ (-1074)`. -/
def IsDouble (x : ℚ) : Prop := ∃ m k : ℤ, |m| < 2 ^ 53 ∧ -1074 ≤ k ∧ x = m * 2 ^ k

/-- JavaScript `a + b` on doubles. -/
def fadd (a b : ℚ) : ℚ := roundDouble (a + b)

/-- JavaScript `a - b` on doubles. -/
def fsub (a b : ℚ) : ℚ := roundDouble (a - b)

/-- JavaScript `a * b` on doubles. -/
def fmul (a b : ℚ) : ℚ := roundDouble (a * b)

/-- JavaScript `a / b` on doubles, for a divisor other than zero. -/
def fdiv (a b : ℚ) : ℚ := roundDouble (a / b)

/-- Modelled from the spec: `THREE.MathUtils.lerp` (see `lerp`) with every operation
rounded to a double: `( 1 - t ) * x + t * y`. -/
def lerp64 (x y t : ℚ) : ℚ := fadd (fmul (fsub 1 t) x) (fmul t y)

/-- Modelled from the spec: `THREE.MathUtils.smoothstep` (see `smoothstep`) with every
operation rounded to a double. -/
def smoothstep64 (x lo hi : ℚ) : ℚ :=
  if x ≤ lo then 0
  else if x ≥ hi then 1
  else
    let t := fdiv (fsub x lo) (fsub hi lo)
    fmul (fmul t t) (fsub 3 (fmul 2 t))

/-- The smoothing line of `animate` (line 338) on doubles:
`scrollProgress += (targetScroll - scrollProgress) * 0.08`, where the literal `0.08`
denotes the double nearest to it. -/
def smoothingStep64 (scrollProgress targetScroll : ℚ) : ℚ :=
  fadd scrollProgress (fmul (fsub targetScroll scrollProgress) (roundDouble 0.08))

/-- The remap of `animate` (lines 340-344) on doubles; the literal `0.1` denotes the
double nearest to it, `0.5` is a double. -/
def animationProgress64 (scrollProgress : ℚ) : ℚ :=
  smoothstep64 scrollProgress (roundDouble 0.1) 0.5

/-- The per-glyph update of `animate` (lines 358-376) on doubles, see `updateLetter`. -/
def updateLetter64 (scrollProgress animationProgress : ℚ) (d : LetterDatum) : LetterDatum :=
  { d with
    group :=
      { d.group with
        position :=
          { x := lerp64 0 d.targetX animationProgress
            y := lerp64 (-20) d.targetY animationProgress
            z := lerp64 (-10) d.baseZ animationProgress }
        rotation :=
          { x := fadd d.randomRotX (fmul scrollProgress 6.0)
            y := fadd d.randomRotY (fmul scrollProgress 7.0)
            z := fadd d.randomRotZ (fmul scrollProgress 5.0) } } }

/-! ## What a glyph instance is constructed with -/

/-- The values a glyph instance is constructed with (lines 304-310): `index`, `targetX`,
`targetY`, `baseZ` and the three random rotation offsets. -/
def LetterDatum.construction (d : LetterDatum) : ℕ × ℚ × ℚ × ℚ × ℚ × ℚ × ℚ :=
  (d.index, d.targetX, d.targetY, d.baseZ, d.randomRotX, d.randomRotY, d.randomRotZ)

/-- Construction values of the glyphs, in `letterData` order. -/
def constructionValues (w : World) : List (ℕ × ℚ × ℚ × ℚ × ℚ × ℚ × ℚ) :=
  w.letterData.map LetterDatum.construction

/-- The parts of a glyph's group that are not its position or rotation, with the
glyph's material handle. -/
def LetterDatum.rest (d : LetterDatum) : ℕ × Vector3 × List Mesh :=
  (d.material, d.group.scale, d.group.children)

/-- A material with its `uTime` uniform blanked out, to compare everything else. -/
def Material.withoutTime (m : Material) : Material := { m with uTime := 0 }

/-! ## Uniform values and writes to them -/

/-- The uniform values the shader of a material reads: those of `Material`, with the
`uCameraPosition` reference resolved to the vector it points to. -/
structure UniformValues where
  uAmbientColor : ℕ
  uAmbientIntensity : ℚ
  uPointLightPositions : List Vector3
  uPointLightColors : List ℕ
  uPointLightIntensities : List ℚ
  uNumLights : ℕ
  uTime : ℚ
  uCameraPosition : Vector3
deriving DecidableEq, Repr

/-- The uniform values of the material with the given handle (`none` for no material). -/
def World.uniformsOf (w : World) (material : ℕ) : Option UniformValues :=
  (w.materials.get? material).map fun m =>
    { uAmbientColor := m.uAmbientColor
      uAmbientIntensity := m.uAmbientIntensity
      uPointLightPositions := m.uPointLightPositions
      uPointLightColors := m.uPointLightColors
      uPointLightIntensities := m.uPointLightIntensities
      uNumLights := m.uNumLights
      uTime := m.uTime
      uCameraPosition := w.deref m.uCameraPosition }

/-- A mutation of one uniform value through a material, `material.uniforms.<name>.value`:
assignment of a number (`uTime.value = v`, as in line 379), replacement of a colour,
of one light's position, colour or intensity, and for `uCameraPosition` the in-place
`value.copy(v)` that `animate` performs (lines 380-382). -/
inductive UniformWrite where
  | uAmbientColor (hex : ℕ)
  | uAmbientIntensity (v : ℚ)
  | uPointLightPosition (light : ℕ) (v : Vector3)
  | uPointLightColor (light : ℕ) (hex : ℕ)
  | uPointLightIntensity (light : ℕ) (v : ℚ)
  | uNumLights (n : ℕ)
  | uTime (v : ℚ)
  | uCameraPosition (v : Vector3)
deriving DecidableEq, Repr

/-- Apply a uniform write through the material with the given handle. -/
def World.writeUniform (w : World) (material : ℕ) : UniformWrite → World
  | .uAmbientColor hex =>
      { w with materials := w.materials.modify (fun m => { m with uAmbientColor := hex }) material }
  | .uAmbientIntensity v =>
      { w with materials := w.materials.modify (fun m => { m with uAmbientIntensity := v }) material }
  | .uPointLightPosition light v =>
      { w with
        materials :=
          w.materials.modify
            (fun m => { m with uPointLightPositions := m.uPointLightPositions.set light v }) material }
  | .uPointLightColor light hex =>
      { w with
        materials :=
          w.materials.modify
            (fun m => { m with uPointLightColors := m.uPointLightColors.set light hex }) material }
  | .uPointLightIntensity light v =>
      { w with
        materials :=
          w.materials.modify
            (fun m => { m with uPointLightIntensities := m.uPointLightIntensities.set light v })
            material }
  | .uNumLights n =>
      { w with materials := w.materials.modify (fun m => { m with uNumLights := n }) material }
  | .uTime v =>
      { w with materials := w.materials.modify (fun m => { m with uTime := v }) material }
  | .uCameraPosition v =>
      match w.materials.get? material with
      | some m => w.copyInto m.uCameraPosition v
      | none => w

/-- The world after two calls of `createAdvancedGradientMaterial`, with the two handles
they return. -/
def twoMaterials : (ℕ × ℕ) × World :=
  let first := createAdvancedGradientMaterial (initialWorld [])
  let second := createAdvancedGradientMaterial first.2
  ((first.1, second.1), second.2)

/-! ## Facts about the frame callback -/

theorem updateUniforms_eq (t : ℚ) (w : World) (d : LetterDatum) :
    updateUniforms t w d =
      { w with materials := w.materials.modify (fun m => { m with uTime := t }) d.material } := by
  unfold updateUniforms
  dsimp only
  split
  · rename_i m _
    cases hm : m.uCameraPosition
    simp [World.copyInto]
  · rfl

theorem foldl_updateUniforms (t : ℚ) (ds : List LetterDatum) (w : World) :
    ds.foldl (updateUniforms t) w =
      { w with
        materials :=
          ds.foldl (fun ms d => ms.modify (fun m => { m with uTime := t }) d.material) w.materials } := by
  induction ds generalizing w with
  | nil => rfl
  | cons d ds ih => simp only [List.foldl_cons, ih, updateUniforms_eq]

theorem animate_eq (t : ℚ) (w : World) :
    animate t w =
      { w with
        pendingFrames := w.pendingFrames + 1
        scrollProgress := w.scrollProgress + (w.targetScroll - w.scrollProgress) * 0.08
        letterData :=
          w.letterData.map
            (updateLetter (w.scrollProgress + (w.targetScroll - w.scrollProgress) * 0.08)
              (smoothstep (w.scrollProgress + (w.targetScroll - w.scrollProgress) * 0.08) 0.1 0.5))
        materials :=
          (w.letterData.map
            (updateLetter (w.scrollProgress + (w.targetScroll - w.scrollProgress) * 0.08)
              (smoothstep (w.scrollProgress + (w.targetScroll - w.scrollProgress) * 0.08) 0.1 0.5))).foldl
            (fun ms d => ms.modify (fun m => { m with uTime := t }) d.material) w.materials
        renderCalls := w.renderCalls + 1 } := by
  unfold animate
  simp only [foldl_updateUniforms]

theorem animate_letterData (t : ℚ) (w : World) :
    (animate t w).letterData =
      w.letterData.map
        (updateLetter (animate t w).scrollProgress (smoothstep (animate t w).scrollProgress 0.1 0.5)) := by
  rw [animate_eq]

theorem animate_scrollProgress (t : ℚ) (w : World) :
    (animate t w).scrollProgress = w.scrollProgress + (w.targetScroll - w.scrollProgress) * 0.08 := by
  rw [animate_eq]

theorem animate_targetScroll (t : ℚ) (w : World) : (animate t w).targetScroll = w.targetScroll := by
  rw [animate_eq]

theorem animate_pendingFrames (t : ℚ) (w : World) :
    (animate t w).pendingFrames = w.pendingFrames + 1 := by
  rw [animate_eq]

theorem animate_renderCalls (t : ℚ) (w : World) : (animate t w).renderCalls = w.renderCalls + 1 := by
  rw [animate_eq]

theorem animate_listeners (t : ℚ) (w : World) : (animate t w).listeners = w.listeners := by
  rw [animate_eq]

theorem smoothstep_of_le {x lo hi : ℚ} (h : x ≤ lo) : smoothstep x lo hi = 0 := by
  simp [smoothstep, h]

theorem smoothstep_of_ge {x lo hi : ℚ} (hlt : lo < hi) (h : hi ≤ x) : smoothstep x lo hi = 1 := by
  have h1 : ¬ x ≤ lo := not_le.mpr (lt_of_lt_of_le hlt h)
  simp [smoothstep, h1, h]

theorem lerp_one (x y : ℚ) : lerp x y 1 = y := by
  simp [lerp]

theorem lerp_zero (x y : ℚ) : lerp x y 0 = x := by
  simp [lerp]

/-! ## Arrival and launch positions -/

/-- C1: when the smoothed `scrollProgress` of a frame is at least 0.5, `animate` computes
`animationProgress = smoothstep(scrollProgress, 0.1, 0.5) = 1` and leaves every glyph at
exactly `(targetX, targetY, baseZ)`, glyph by glyph in the order of `letterData`. -/
theorem animate_arrived (t : ℚ) (w : World) (h : 0.5 ≤ (animate t w).scrollProgress) :
    smoothstep (animate t w).scrollProgress 0.1 0.5 = 1 ∧
      (animate t w).letterData.map (fun d => d.group.position) =
        w.letterData.map (fun d => ({ x := d.targetX, y := d.targetY, z := d.baseZ } : Vector3)) := by
  have hs : smoothstep (animate t w).scrollProgress 0.1 0.5 = 1 :=
    smoothstep_of_ge (by norm_num) h
  refine ⟨hs, ?_⟩
  rw [animate_letterData, hs, List.map_map]
  apply List.map_congr_left
  intro d _
  simp [updateLetter, lerp_one]

theorem animate_arrived_witness :
    (0.5 : ℚ) ≤ (animate 3 (sampleWorld 1 1)).scrollProgress ∧
      smoothstep (animate 3 (sampleWorld 1 1)).scrollProgress 0.1 0.5 = 1 ∧
      (animate 3 (sampleWorld 1 1)).letterData.map (fun d => d.group.position) =
        (sampleWorld 1 1).letterData.map
          (fun d => ({ x := d.targetX, y := d.targetY, z := d.baseZ } : Vector3)) :=
  ⟨by rw [animate_scrollProgress]; norm_num [sampleWorld],
    animate_arrived 3 (sampleWorld 1 1) (by rw [animate_scrollProgress]; norm_num [sampleWorld])⟩

/-- C2: when the smoothed `scrollProgress` of a frame is at most 0.1 (in particular 0),
`animate` computes `animationProgress = 0` and leaves every glyph at exactly
`(0, -20, -10)`, whatever its target position and index. -/
theorem animate_at_launch (t : ℚ) (w : World) (h : (animate t w).scrollProgress ≤ 0.1) :
    smoothstep (animate t w).scrollProgress 0.1 0.5 = 0 ∧
      ∀ d ∈ (animate t w).letterData, d.group.position = { x := 0, y := -20, z := -10 } := by
  have hs : smoothstep (animate t w).scrollProgress 0.1 0.5 = 0 := smoothstep_of_le h
  refine ⟨hs, ?_⟩
  intro d hd
  rw [animate_letterData, hs, List.mem_map] at hd
  obtain ⟨d0, _, rfl⟩ := hd
  simp [updateLetter, lerp_zero]

theorem animate_at_launch_witness :
    (animate 3 (sampleWorld 0 0)).scrollProgress ≤ 0.1 ∧
      smoothstep (animate 3 (sampleWorld 0 0)).scrollProgress 0.1 0.5 = 0 ∧
      ∀ d ∈ (animate 3 (sampleWorld 0 0)).letterData,
        d.group.position = { x := 0, y := -20, z := -10 } :=
  ⟨by rw [animate_scrollProgress]; norm_num [sampleWorld, initialWorld],
    animate_at_launch 3 (sampleWorld 0 0)
      (by rw [animate_scrollProgress]; norm_num [sampleWorld, initialWorld])⟩

/-! ## The remap -/

theorem cubic_mono {a b : ℚ} (ha : 0 ≤ a) (hab : a ≤ b) (hb : b ≤ 1) :
    a * a * (3 - 2 * a) ≤ b * b * (3 - 2 * b) := by
  have h1 : 0 ≤ b - a := sub_nonneg.mpr hab
  have h2 : 0 ≤ 1 - b := sub_nonneg.mpr hb
  have h3 : 0 ≤ b := le_trans ha hab
  nlinarith [mul_nonneg h1 (mul_nonneg ha h2), mul_nonneg h1 (mul_nonneg h3 h2),
    mul_nonneg h1 (mul_nonneg ha (sub_nonneg.mpr (le_trans hab hb))),
    mul_nonneg (mul_nonneg h1 h1) h2, mul_nonneg (mul_nonneg h1 h1) ha]

theorem smoothstep_nonneg (x : ℚ) : 0 ≤ smoothstep x 0.1 0.5 := by
  unfold smoothstep
  split_ifs with h1 h2
  · exact le_refl 0
  · exact zero_le_one
  · have ht : 0 ≤ (x - 0.1) / (0.5 - 0.1) := by
      apply div_nonneg
      · linarith [not_le.mp h1]
      · norm_num
    have ht1 : (x - 0.1) / (0.5 - 0.1) ≤ 1 := by
      rw [div_le_one (by norm_num)]
      linarith [not_le.mp h2]
    dsimp only
    have := cubic_mono (le_refl 0) ht ht1
    simpa using this

theorem smoothstep_le_one (x : ℚ) : smoothstep x 0.1 0.5 ≤ 1 := by
  unfold smoothstep
  split_ifs with h1 h2
  · exact zero_le_one
  · exact le_refl 1
  · have ht : 0 ≤ (x - 0.1) / (0.5 - 0.1) := by
      apply div_nonneg
      · linarith [not_le.mp h1]
      · norm_num
    have ht1 : (x - 0.1) / (0.5 - 0.1) ≤ 1 := by
      rw [div_le_one (by norm_num)]
      linarith [not_le.mp h2]
    dsimp only
    generalize (x - 0.1) / (0.5 - 0.1) = u at ht ht1
    have := cubic_mono ht ht1 (le_refl 1)
    norm_num at this
    linarith

theorem smoothstep_mono {x y : ℚ} (hxy : x ≤ y) : smoothstep x 0.1 0.5 ≤ smoothstep y 0.1 0.5 := by
  by_cases hx : x ≤ 0.1
  · rw [smoothstep_of_le hx]
    exact smoothstep_nonneg y
  · by_cases hy : 0.5 ≤ y
    · rw [smoothstep_of_ge (by norm_num) hy]
      exact smoothstep_le_one x
    · have hy1 : ¬ y ≤ 0.1 := fun h => hx (le_trans hxy h)
      have hx2 : ¬ x ≥ 0.5 := fun h => hy (le_trans h hxy)
      have hy2 : ¬ y ≥ 0.5 := hy
      simp only [smoothstep, hx, hy1, hx2, hy2, if_false]
      apply cubic_mono
      · apply div_nonneg
        · linarith [not_le.mp hx]
        · norm_num
      · apply div_le_div_of_nonneg_right
        · linarith
        · norm_num
      · rw [div_le_one (by norm_num)]
        linarith [not_le.mp hy]

/-- C3: the remap `smoothstep(scrollProgress, 0.1, 0.5)` used by `animate` is
monotonically non-decreasing in `scrollProgress`, and its value lies in [0,1] for every
input, below 0.1 and above 0.5 included.  (Every frame's `animationProgress` is this
function of the frame's `scrollProgress`, by `animate_letterData`.) -/
theorem smoothstep_monotone_bounded :
    Monotone (fun scrollProgress : ℚ => smoothstep scrollProgress 0.1 0.5) ∧
      ∀ scrollProgress : ℚ,
        0 ≤ smoothstep scrollProgress 0.1 0.5 ∧ smoothstep scrollProgress 0.1 0.5 ≤ 1 :=
  ⟨fun _ _ hxy => smoothstep_mono hxy, fun x => ⟨smoothstep_nonneg x, smoothstep_le_one x⟩⟩

/-! ## Rotation in exact arithmetic -/

/-- In exact arithmetic: the rotation `animate` gives a glyph is
`(randomRotX + 6.0 p, randomRotY + 7.0 p, randomRotZ + 5.0 p)` for the frame's raw
`scrollProgress` `p`, whatever `animationProgress` is; and of two frames whose
`scrollProgress` values are `0.5 ≤ p1 < p2`, both put the glyph at the same position
while the rotations differ by `(p2 - p1)` times the rate of the axis. -/
theorem rotation_follows_raw_scroll (t : ℚ) (w : World) (d : LetterDatum) (a p1 p2 : ℚ)
    (h1 : 0.5 ≤ p1) (h2 : p1 < p2) :
    (animate t w).letterData.map (fun d => d.group.rotation) =
        w.letterData.map (fun d =>
          ({ x := d.randomRotX + (animate t w).scrollProgress * 6.0
             y := d.randomRotY + (animate t w).scrollProgress * 7.0
             z := d.randomRotZ + (animate t w).scrollProgress * 5.0 } : Vector3)) ∧
      (updateLetter p1 a d).group.rotation =
        { x := d.randomRotX + p1 * 6.0, y := d.randomRotY + p1 * 7.0, z := d.randomRotZ + p1 * 5.0 } ∧
      (updateLetter p2 (smoothstep p2 0.1 0.5) d).group.position =
        (updateLetter p1 (smoothstep p1 0.1 0.5) d).group.position ∧
      (updateLetter p2 (smoothstep p2 0.1 0.5) d).group.rotation.x -
          (updateLetter p1 (smoothstep p1 0.1 0.5) d).group.rotation.x = (p2 - p1) * 6.0 ∧
      (updateLetter p2 (smoothstep p2 0.1 0.5) d).group.rotation.y -
          (updateLetter p1 (smoothstep p1 0.1 0.5) d).group.rotation.y = (p2 - p1) * 7.0 ∧
      (updateLetter p2 (smoothstep p2 0.1 0.5) d).group.rotation.z -
          (updateLetter p1 (smoothstep p1 0.1 0.5) d).group.rotation.z = (p2 - p1) * 5.0 := by
  have s1 : smoothstep p1 0.1 0.5 = 1 := smoothstep_of_ge (by norm_num) h1
  have s2 : smoothstep p2 0.1 0.5 = 1 := smoothstep_of_ge (by norm_num) (le_trans h1 (le_of_lt h2))
  refine ⟨?_, rfl, ?_, ?_, ?_, ?_⟩
  · rw [animate_letterData, List.map_map]
    rfl
  · rw [s1, s2]
    rfl
  · simp only [updateLetter]
    ring
  · simp only [updateLetter]
    ring
  · simp only [updateLetter]
    ring

theorem rotation_follows_raw_scroll_witness :
    (updateLetter (3 / 4) (smoothstep (3 / 4) 0.1 0.5) sampleLetter).group.rotation.y -
        (updateLetter (1 / 2) (smoothstep (1 / 2) 0.1 0.5) sampleLetter).group.rotation.y =
      (3 / 4 - 1 / 2) * 7.0 :=
  (rotation_follows_raw_scroll 0 (sampleWorld 0 1) sampleLetter 0 (1 / 2) (3 / 4)
    (by norm_num) (by norm_num)).2.2.2.2.1

/-! ## Alpha -/

/-- C10: the alpha written by the fragment shader lies in [0,1] for every rim factor and
every specular sum (non-negative or not), and it is exactly 1 at `rimFactor = 1` as soon
as the specular sum is at least 0.5, however large. -/
theorem fragmentAlpha_clamped (rimFactor totalSpecular : ℚ) :
    0 ≤ fragmentAlpha rimFactor totalSpecular ∧ fragmentAlpha rimFactor totalSpecular ≤ 1 ∧
      (0.5 ≤ totalSpecular → fragmentAlpha 1 totalSpecular = 1) := by
  refine ⟨?_, ?_, ?_⟩
  · simp [fragmentAlpha, clamp]
  · simp [fragmentAlpha, clamp]
  · intro h
    have : (1 : ℚ) ≤ 0.15 + 0.6 * 1 + totalSpecular * 0.5 := by linarith
    simp only [fragmentAlpha, clamp]
    rw [max_eq_left (by linarith), min_eq_right this]

/-! ## Convergence to the authored layout -/

theorem animate_targets (t : ℚ) (w : World) : targets (animate t w) = targets w := by
  unfold targets
  rw [animate_letterData, List.map_map]
  rfl

theorem assembleLetters_targets (env : Env) (pre : List Listener) :
    targets (assembleLetters env pre) = positions := by
  simp [targets, assembleLetters, letters, List.enum, List.enumFrom, addLetter, createLetter,
    createLetterOfShape, createAdvancedGradientMaterial, initialWorld, positions]

theorem assembleLetters_scroll (env : Env) (pre : List Listener) :
    (assembleLetters env pre).scrollProgress = 0 ∧ (assembleLetters env pre).targetScroll = 0 := by
  simp [assembleLetters, letters, List.enum, List.enumFrom, addLetter, createLetter,
    createLetterOfShape, createAdvancedGradientMaterial, initialWorld]

theorem setup_targets (env : Env) (pre : List Listener) (t0 : ℚ) :
    targets (setup env pre t0) = positions := by
  simp only [setup, targets]
  rw [animate_letterData, List.map_map]
  exact assembleLetters_targets env pre

theorem setup_scrollProgress (env : Env) (pre : List Listener) (t0 : ℚ) :
    (setup env pre t0).scrollProgress = 0 := by
  simp only [setup]
  rw [animate_scrollProgress]
  simp [assembleLetters_scroll]

theorem frames_targets (ts : List ℚ) (w : World) :
    targets (ts.foldl (fun w t => animate t w) w) = targets w := by
  induction ts generalizing w with
  | nil => rfl
  | cons t ts ih => rw [List.foldl_cons, ih, animate_targets]

theorem frames_targetScroll (ts : List ℚ) (w : World) :
    (ts.foldl (fun w t => animate t w) w).targetScroll = w.targetScroll := by
  induction ts generalizing w with
  | nil => rfl
  | cons t ts ih => rw [List.foldl_cons, ih, animate_targetScroll]

theorem frames_scrollProgress (ts : List ℚ) (w : World) :
    (ts.foldl (fun w t => animate t w) w).scrollProgress =
      w.targetScroll - (w.targetScroll - w.scrollProgress) * 0.92 ^ ts.length := by
  induction ts generalizing w with
  | nil => simp
  | cons t ts ih =>
    rw [List.foldl_cons, ih, animate_targetScroll, animate_scrollProgress, List.length_cons, pow_succ]
    ring

theorem pow_frames_le_half {n : ℕ} (h : 9 ≤ n) : (0.92 : ℚ) ^ n ≤ 0.5 := by
  calc (0.92 : ℚ) ^ n ≤ 0.92 ^ 9 := pow_le_pow_of_le_one (by norm_num) (by norm_num) h
    _ ≤ 0.5 := by norm_num

theorem frames_arrive (w : World) (hS : w.scrollProgress = 0) (hT : w.targetScroll = 1)
    (ts : List ℚ) (h : 9 ≤ ts.length) :
    ∀ d ∈ (ts.foldl (fun w t => animate t w) w).letterData,
      d.group.position.x = d.targetX ∧ d.group.position.y = d.targetY := by
  have hsp := frames_scrollProgress ts w
  have hpow := pow_frames_le_half h
  rw [hS, hT] at hsp
  rcases List.eq_nil_or_concat ts with hnil | ⟨init, t, rfl⟩
  · rw [hnil] at h
    simp at h
  · rw [List.concat_eq_append] at hpow
    rw [List.concat_eq_append, List.foldl_append] at hsp ⊢
    simp only [List.foldl_cons, List.foldl_nil] at hsp ⊢
    have hge : (0.5 : ℚ) ≤ (animate t (init.foldl (fun w t => animate t w) w)).scrollProgress := by
      rw [hsp]
      linarith
    intro d hd
    rw [animate_letterData, smoothstep_of_ge (by norm_num) hge, List.mem_map] at hd
    obtain ⟨d0, _, rfl⟩ := hd
    simp [updateLetter, lerp_one]

/-- C4: start from the mounted scene (`scrollProgress = 0`) with `targetScroll` held at
1.0.  With `N = 9`: after any `n ≥ N` runs of `animate` (the list `ts` holds the clock
readings of the `n` frames) the five glyphs have the authored `positions` as targets and
each is within 0.01 of its target in `x` and in `y` (it is exactly there). -/
theorem frames_converge_to_layout (env : Env) (pre : List Listener) (t0 : ℚ) (ts : List ℚ)
    (h : 9 ≤ ts.length) :
    (setup env pre t0).scrollProgress = 0 ∧
      targets (ts.foldl (fun w t => animate t w) { setup env pre t0 with targetScroll := 1 }) =
        positions ∧
      ∀ d ∈ (ts.foldl (fun w t => animate t w) { setup env pre t0 with targetScroll := 1 }).letterData,
        |d.group.position.x - d.targetX| ≤ 0.01 ∧ |d.group.position.y - d.targetY| ≤ 0.01 := by
  have hS := setup_scrollProgress env pre t0
  have hT := setup_targets env pre t0
  generalize setup env pre t0 = w at hS hT ⊢
  refine ⟨hS, ?_, ?_⟩
  · rw [frames_targets]
    exact hT
  · intro d hd
    have := frames_arrive { w with targetScroll := 1 } hS rfl ts h d hd
    rw [this.1, this.2]
    norm_num

theorem frames_converge_to_layout_witness :
    9 ≤ (List.replicate 9 (0 : ℚ)).length ∧
      targets ((List.replicate 9 (0 : ℚ)).foldl (fun w t => animate t w)
        { setup sampleEnv [] 0 with targetScroll := 1 }) = positions ∧
      ∀ d ∈ ((List.replicate 9 (0 : ℚ)).foldl (fun w t => animate t w)
          { setup sampleEnv [] 0 with targetScroll := 1 }).letterData,
        |d.group.position.x - d.targetX| ≤ 0.01 ∧ |d.group.position.y - d.targetY| ≤ 0.01 :=
  ⟨by simp, (frames_converge_to_layout sampleEnv [] 0 (List.replicate 9 0) (by simp)).2⟩

/-! ## The scroll fraction -/

theorem handleScroll_of_ne (scrollY scrollHeight innerHeight : ℚ) (w : World)
    (h : scrollHeight - innerHeight ≠ 0) :
    handleScroll scrollY scrollHeight innerHeight w =
      some { w with targetScroll := scrollY / (scrollHeight - innerHeight) } := by
  simp [handleScroll, jsDiv, h]

/-- C7 fails as stated: when the document is exactly as tall as the viewport (here both
heights are 0, a viewport of height 0, in which the `340vh` container measures 0 too)
the only scroll position within the bounds is `scrollY = 0`, and there `handleScroll`
divides `0` by `0`: `targetScroll` is not a number. -/
theorem handleScroll_zero_range :
    (0 : ℚ) ≤ 0 ∧ (0 : ℚ) ≤ 0 - 0 ∧ ∀ w : World, handleScroll 0 0 0 w = none := by
  refine ⟨le_refl 0, by norm_num, ?_⟩
  intro w
  simp [handleScroll, jsDiv]

/-- C7, amended: when the page is taller than the viewport, for every scroll position
`0 ≤ scrollY ≤ scrollHeight - innerHeight`, `handleScroll` sets `targetScroll` to
`scrollY / (scrollHeight - innerHeight)`, changes nothing else, and that value lies in
[0,1]. -/
theorem handleScroll_fraction (scrollY scrollHeight innerHeight : ℚ) (w : World)
    (hpos : innerHeight < scrollHeight) (h0 : 0 ≤ scrollY)
    (h1 : scrollY ≤ scrollHeight - innerHeight) :
    handleScroll scrollY scrollHeight innerHeight w =
        some { w with targetScroll := scrollY / (scrollHeight - innerHeight) } ∧
      0 ≤ scrollY / (scrollHeight - innerHeight) ∧ scrollY / (scrollHeight - innerHeight) ≤ 1 := by
  have hd : 0 < scrollHeight - innerHeight := sub_pos.mpr hpos
  exact ⟨handleScroll_of_ne scrollY scrollHeight innerHeight w (ne_of_gt hd),
    div_nonneg h0 (le_of_lt hd), (div_le_one hd).mpr h1⟩

theorem handleScroll_fraction_witness :
    handleScroll 340 3400 1000 (sampleWorld 0 0) =
        some { sampleWorld 0 0 with targetScroll := 340 / (3400 - 1000) } ∧
      (0 : ℚ) ≤ 340 / (3400 - 1000) ∧ (340 : ℚ) / (3400 - 1000) ≤ 1 :=
  handleScroll_fraction 340 3400 1000 (sampleWorld 0 0) (by norm_num) (by norm_num) (by norm_num)

/-! ## The frame loop after unmount -/

theorem foldl_disposeChild (cs : List Mesh) (w : World) :
    cs.foldl disposeChild w =
      { w with
        geometries :=
          cs.foldl
            (fun gs c => gs.modify (fun g => { g with disposeCalls := g.disposeCalls + 1 }) c.geometry)
            w.geometries
        materials :=
          cs.foldl
            (fun ms c => ms.modify (fun m => { m with disposeCalls := m.disposeCalls + 1 }) c.material)
            w.materials } := by
  induction cs generalizing w with
  | nil => rfl
  | cons c cs ih => simp only [List.foldl_cons, ih, disposeChild]

theorem foldl_cleanupLetter (ds : List LetterDatum) (w : World) :
    ds.foldl cleanupLetter w =
      { w with
        geometries :=
          ds.foldl
            (fun gs d =>
              d.group.children.foldl
                (fun gs c =>
                  gs.modify (fun g => { g with disposeCalls := g.disposeCalls + 1 }) c.geometry) gs)
            w.geometries
        materials :=
          ds.foldl
            (fun ms d =>
              d.group.children.foldl
                (fun ms c =>
                  ms.modify (fun m => { m with disposeCalls := m.disposeCalls + 1 }) c.material) ms)
            w.materials
        sceneChildren := ds.foldl (fun sc d => sc.erase d.index) w.sceneChildren } := by
  induction ds generalizing w with
  | nil => rfl
  | cons d ds ih => simp only [List.foldl_cons, ih, cleanupLetter, foldl_disposeChild]

theorem cleanup_eq (w : World) :
    cleanup w =
      { w with
        listeners := removeEventListener resizeListener (removeEventListener scrollListener w.listeners)
        geometries :=
          w.letterData.foldl
            (fun gs d =>
              d.group.children.foldl
                (fun gs c =>
                  gs.modify (fun g => { g with disposeCalls := g.disposeCalls + 1 }) c.geometry) gs)
            w.geometries
        materials :=
          w.letterData.foldl
            (fun ms d =>
              d.group.children.foldl
                (fun ms c =>
                  ms.modify (fun m => { m with disposeCalls := m.disposeCalls + 1 }) c.material) ms)
            w.materials
        sceneChildren := w.letterData.foldl (fun sc d => sc.erase d.index) w.sceneChildren
        rendererDisposeCalls := w.rendererDisposeCalls + 1 } := by
  unfold cleanup
  simp only [foldl_cleanupLetter]

theorem assembleLetters_pendingFrames (env : Env) (pre : List Listener) :
    (assembleLetters env pre).pendingFrames = 0 ∧ (assembleLetters env pre).renderCalls = 0 := by
  simp [assembleLetters, letters, List.enum, List.enumFrom, addLetter, createLetter,
    createLetterOfShape, createAdvancedGradientMaterial, initialWorld]

theorem setup_pendingFrames (env : Env) (pre : List Listener) (t0 : ℚ) :
    (setup env pre t0).pendingFrames = 1 ∧ (setup env pre t0).renderCalls = 1 := by
  simp only [setup]
  rw [animate_pendingFrames, animate_renderCalls]
  simp [assembleLetters_pendingFrames]

theorem displayRefresh_of_one (t : ℚ) (w : World) (h : w.pendingFrames = 1) :
    displayRefresh t w = animate t { w with pendingFrames := 0 } := by
  simp [displayRefresh, h]

theorem refreshes_keep_running (ts : List ℚ) (w : World) (h : w.pendingFrames = 1) :
    (ts.foldl (fun w t => displayRefresh t w) w).pendingFrames = 1 ∧
      (ts.foldl (fun w t => displayRefresh t w) w).renderCalls = w.renderCalls + ts.length := by
  induction ts generalizing w with
  | nil => exact ⟨h, by simp⟩
  | cons t ts ih =>
    have h1 : (displayRefresh t w).pendingFrames = 1 := by
      rw [displayRefresh_of_one t w h, animate_pendingFrames]
    have h2 : (displayRefresh t w).renderCalls = w.renderCalls + 1 := by
      rw [displayRefresh_of_one t w h, animate_renderCalls]
    obtain ⟨ih1, ih2⟩ := ih (displayRefresh t w) h1
    refine ⟨ih1, ?_⟩
    rw [List.foldl_cons, ih2, h2, List.length_cons]
    ring

/-- C5 does not hold of the code: `animate` re-requests itself unconditionally (line 335)
and the cleanup cancels nothing.  After `cleanup`, one `animate` callback is still
queued; every later display refresh runs it (one more `render` call each) and leaves one
queued again, and the frame still moves `scrollProgress` toward `targetScroll`. -/
theorem animate_rearms_after_cleanup (env : Env) (pre : List Listener) (t0 t : ℚ) (ts : List ℚ) :
    (cleanup (setup env pre t0)).pendingFrames = 1 ∧
      (ts.foldl (fun w t => displayRefresh t w) (cleanup (setup env pre t0))).pendingFrames = 1 ∧
      (ts.foldl (fun w t => displayRefresh t w) (cleanup (setup env pre t0))).renderCalls =
        1 + ts.length ∧
      (displayRefresh t (cleanup { setup env pre t0 with targetScroll := 1 })).scrollProgress =
        0.08 := by
  have hp := (setup_pendingFrames env pre t0).1
  have hr := (setup_pendingFrames env pre t0).2
  have hs := setup_scrollProgress env pre t0
  generalize setup env pre t0 = w at hp hr hs
  have hc : (cleanup w).pendingFrames = 1 := by rw [cleanup_eq]; exact hp
  have hcr : (cleanup w).renderCalls = 1 := by rw [cleanup_eq]; exact hr
  refine ⟨hc, (refreshes_keep_running ts _ hc).1, ?_, ?_⟩
  · rw [(refreshes_keep_running ts _ hc).2, hcr]
  · rw [displayRefresh_of_one t _ (by rw [cleanup_eq]; exact hp), animate_scrollProgress]
    simp only [cleanup_eq, hs]
    norm_num

/-! ## Teardown of listeners and GPU resources -/

theorem map_disposeCalls_setUTime (t : ℚ) (ms : List Material) (n : ℕ) :
    (ms.modify (fun m => { m with uTime := t }) n).map (fun m => m.disposeCalls) =
      ms.map (fun m => m.disposeCalls) := by
  induction ms generalizing n with
  | nil => cases n <;> rfl
  | cons m ms ih =>
    cases n with
    | zero => rfl
    | succ n => simp [List.modify_succ_cons, ih]

theorem foldl_setUTime_disposals (t : ℚ) (ds : List LetterDatum) (ms : List Material) :
    (ds.foldl (fun ms d => ms.modify (fun m => { m with uTime := t }) d.material) ms).map
        (fun m => m.disposeCalls) = ms.map (fun m => m.disposeCalls) := by
  induction ds generalizing ms with
  | nil => rfl
  | cons d ds ih => rw [List.foldl_cons, ih, map_disposeCalls_setUTime]

theorem animate_resources (t : ℚ) (w : World) :
    geometryHandles (animate t w) = geometryHandles w ∧
      materialHandles (animate t w) = materialHandles w ∧
      geometryDisposals (animate t w) = geometryDisposals w ∧
      materialDisposals (animate t w) = materialDisposals w := by
  refine ⟨?_, ?_, ?_, ?_⟩
  · simp only [geometryHandles, animate_letterData, List.map_map]
    rfl
  · simp only [materialHandles, animate_letterData, List.map_map]
    rfl
  · rw [animate_eq]
    rfl
  · rw [animate_eq]
    exact foldl_setUTime_disposals t _ _

theorem animate_mounted {pre : List Listener} (t : ℚ) {w : World} (h : Mounted pre w) :
    Mounted pre (animate t w) := by
  obtain ⟨h1, h2, h3, h4, h5⟩ := h
  obtain ⟨r1, r2, r3, r4⟩ := animate_resources t w
  exact ⟨r1.trans h1, r2.trans h2, r3.trans h3, r4.trans h4, (animate_listeners t w).trans h5⟩

theorem displayRefresh_mounted {pre : List Listener} (t : ℚ) {w : World} (h : Mounted pre w) :
    Mounted pre (displayRefresh t w) := by
  unfold displayRefresh
  have h0 : Mounted pre { w with pendingFrames := 0 } := ⟨h.1, h.2, h.3, h.4, h.5⟩
  generalize w.pendingFrames = n
  induction n with
  | zero => exact h0
  | succ n ih =>
    rw [Function.iterate_succ_apply']
    exact animate_mounted t ih

theorem step_mounted {pre : List Listener} {w w1 : World} (e : Event) (h : Mounted pre w)
    (hs : step w e = some w1) : Mounted pre w1 := by
  cases e with
  | scroll scrollY scrollHeight innerHeight =>
    simp only [step, handleScroll] at hs
    split_ifs at hs
    · rw [Option.map_eq_some'] at hs
      obtain ⟨v, _, rfl⟩ := hs
      exact ⟨h.1, h.2, h.3, h.4, h.5⟩
    · cases hs
      exact h
  | refresh elapsedTime =>
    simp only [step, Option.some.injEq] at hs
    subst hs
    exact displayRefresh_mounted elapsedTime h

theorem run_mounted {pre : List Listener} (es : List Event) {w w1 : World} (h : Mounted pre w)
    (hr : run w es = some w1) : Mounted pre w1 := by
  induction es generalizing w with
  | nil =>
    simp only [run, Option.some.injEq] at hr
    subst hr
    exact h
  | cons e es ih =>
    simp only [run, Option.bind_eq_some] at hr
    obtain ⟨w2, hstep, hrest⟩ := hr
    exact ih (step_mounted e h hstep) hrest

theorem assembleLetters_resources (env : Env) (pre : List Listener) :
    geometryHandles (assembleLetters env pre) = [[0], [1], [2], [3], [4]] ∧
      materialHandles (assembleLetters env pre) = [[0], [1], [2], [3], [4]] ∧
      geometryDisposals (assembleLetters env pre) = [0, 0, 0, 0, 0] ∧
      materialDisposals (assembleLetters env pre) = [0, 0, 0, 0, 0] ∧
      (assembleLetters env pre).listeners = pre := by
  simp [geometryHandles, materialHandles, geometryDisposals, materialDisposals, assembleLetters,
    letters, List.enum, List.enumFrom, addLetter, createLetter, createLetterOfShape,
    createAdvancedGradientMaterial, initialWorld]

theorem addEventListener_both (pre : List Listener)
    (hs : scrollListener ∉ pre) (hr : resizeListener ∉ pre) :
    addEventListener resizeListener (addEventListener scrollListener pre) =
      pre ++ [scrollListener, resizeListener] := by
  have hne : resizeListener ≠ scrollListener := by decide
  unfold addEventListener
  rw [if_neg hs, if_neg]
  · simp
  · simp only [List.mem_append, List.mem_singleton, not_or]
    exact ⟨hr, hne⟩

theorem removeEventListener_both (pre : List Listener)
    (hs : scrollListener ∉ pre) (hr : resizeListener ∉ pre) :
    removeEventListener resizeListener
        (removeEventListener scrollListener (pre ++ [scrollListener, resizeListener])) = pre := by
  unfold removeEventListener
  rw [List.erase_append_right _ hs]
  simp only [List.erase_cons_head]
  rw [List.erase_append_right _ hr]
  simp

theorem setup_mounted (env : Env) (pre : List Listener) (t0 : ℚ)
    (hs : scrollListener ∉ pre) (hr : resizeListener ∉ pre) : Mounted pre (setup env pre t0) := by
  obtain ⟨a1, a2, a3, a4, a5⟩ := assembleLetters_resources env pre
  simp only [setup]
  generalize assembleLetters env pre = w0 at a1 a2 a3 a4 a5
  obtain ⟨r1, r2, r3, r4⟩ := animate_resources t0
    { w0 with listeners := addEventListener scrollListener w0.listeners }
  have r5 := animate_listeners t0 { w0 with listeners := addEventListener scrollListener w0.listeners }
  generalize animate t0 { w0 with listeners := addEventListener scrollListener w0.listeners } = w1
    at r1 r2 r3 r4 r5
  refine ⟨r1.trans a1, r2.trans a2, r3.trans a3, r4.trans a4, ?_⟩
  simp only [r5, a5]
  exact addEventListener_both pre hs hr

theorem map_disposeCalls_bump_geometry (gs : List Geometry) (n : ℕ) :
    (gs.modify (fun g => { g with disposeCalls := g.disposeCalls + 1 }) n).map
        (fun g => g.disposeCalls) =
      (gs.map (fun g => g.disposeCalls)).modify (fun c => c + 1) n := by
  induction gs generalizing n with
  | nil => cases n <;> rfl
  | cons g gs ih =>
    cases n with
    | zero => rfl
    | succ n => simp [List.modify_succ_cons, ih]

theorem map_disposeCalls_bump_material (ms : List Material) (n : ℕ) :
    (ms.modify (fun m => { m with disposeCalls := m.disposeCalls + 1 }) n).map
        (fun m => m.disposeCalls) =
      (ms.map (fun m => m.disposeCalls)).modify (fun c => c + 1) n := by
  induction ms generalizing n with
  | nil => cases n <;> rfl
  | cons m ms ih =>
    cases n with
    | zero => rfl
    | succ n => simp [List.modify_succ_cons, ih]

theorem cleanup_geometryDisposals (w : World) :
    geometryDisposals (cleanup w) = bumpAll (geometryHandles w) (geometryDisposals w) := by
  rw [cleanup_eq]
  simp only [geometryDisposals, geometryHandles, bumpAll, List.foldl_map]
  generalize w.geometries = gs
  induction w.letterData generalizing gs with
  | nil => rfl
  | cons d ds ih =>
    rw [List.foldl_cons, List.foldl_cons, ih]
    congr 1
    generalize d.group.children = cs
    induction cs generalizing gs with
    | nil => rfl
    | cons c cs ih2 => rw [List.foldl_cons, List.foldl_cons, ih2, map_disposeCalls_bump_geometry]

theorem cleanup_materialDisposals (w : World) :
    materialDisposals (cleanup w) = bumpAll (materialHandles w) (materialDisposals w) := by
  rw [cleanup_eq]
  simp only [materialDisposals, materialHandles, bumpAll, List.foldl_map]
  generalize w.materials = ms
  induction w.letterData generalizing ms with
  | nil => rfl
  | cons d ds ih =>
    rw [List.foldl_cons, List.foldl_cons, ih]
    congr 1
    generalize d.group.children = cs
    induction cs generalizing ms with
    | nil => rfl
    | cons c cs ih2 => rw [List.foldl_cons, List.foldl_cons, ih2, map_disposeCalls_bump_material]

theorem displayRefresh_released (t : ℚ) (w : World) :
    geometryDisposals (displayRefresh t w) = geometryDisposals w ∧
      materialDisposals (displayRefresh t w) = materialDisposals w ∧
      (displayRefresh t w).listeners = w.listeners := by
  unfold displayRefresh
  have h0 : geometryDisposals { w with pendingFrames := 0 } = geometryDisposals w ∧
      materialDisposals { w with pendingFrames := 0 } = materialDisposals w ∧
      ({ w with pendingFrames := 0 } : World).listeners = w.listeners := ⟨rfl, rfl, rfl⟩
  generalize w.pendingFrames = n
  induction n with
  | zero => exact h0
  | succ n ih =>
    rw [Function.iterate_succ_apply']
    obtain ⟨_, _, r3, r4⟩ := animate_resources t ((animate t)^[n] { w with pendingFrames := 0 })
    exact ⟨r3.trans ih.1, r4.trans ih.2.1, (animate_listeners t _).trans ih.2.2⟩

theorem refreshes_released (ts : List ℚ) (w : World) :
    geometryDisposals (ts.foldl (fun w t => displayRefresh t w) w) = geometryDisposals w ∧
      materialDisposals (ts.foldl (fun w t => displayRefresh t w) w) = materialDisposals w ∧
      (ts.foldl (fun w t => displayRefresh t w) w).listeners = w.listeners := by
  induction ts generalizing w with
  | nil => exact ⟨rfl, rfl, rfl⟩
  | cons t ts ih =>
    obtain ⟨a1, a2, a3⟩ := ih (displayRefresh t w)
    obtain ⟨b1, b2, b3⟩ := displayRefresh_released t w
    exact ⟨a1.trans b1, a2.trans b2, a3.trans b3⟩

/-- C6: mount the scene on a window whose listeners `pre` do not contain the two
registrations the effect makes, let any scroll events and display refreshes `es` happen,
and run the cleanup once.  Before the cleanup five geometries and five materials exist,
none disposed.  After it, and after any further display refreshes `ts`, the window's
listeners are exactly `pre` again (neither the scroll nor the resize listener remains)
and every geometry and every material has received `dispose()` exactly once. -/
theorem cleanup_releases_everything (env : Env) (pre : List Listener) (t0 : ℚ)
    (es : List Event) (w : World) (ts : List ℚ)
    (hs : scrollListener ∉ pre) (hr : resizeListener ∉ pre)
    (hrun : run (setup env pre t0) es = some w) :
    (geometryDisposals w = [0, 0, 0, 0, 0] ∧ materialDisposals w = [0, 0, 0, 0, 0]) ∧
      (ts.foldl (fun w t => displayRefresh t w) (cleanup w)).listeners = pre ∧
      scrollListener ∉ (ts.foldl (fun w t => displayRefresh t w) (cleanup w)).listeners ∧
      resizeListener ∉ (ts.foldl (fun w t => displayRefresh t w) (cleanup w)).listeners ∧
      geometryDisposals (ts.foldl (fun w t => displayRefresh t w) (cleanup w)) = [1, 1, 1, 1, 1] ∧
      materialDisposals (ts.foldl (fun w t => displayRefresh t w) (cleanup w)) = [1, 1, 1, 1, 1] := by
  have hm := run_mounted es (setup_mounted env pre t0 hs hr) hrun
  obtain ⟨h1, h2, h3, h4, h5⟩ := hm
  obtain ⟨k1, k2, k3⟩ := refreshes_released ts (cleanup w)
  have hl : (cleanup w).listeners = pre := by
    rw [cleanup_eq]
    simp only [h5]
    exact removeEventListener_both pre hs hr
  rw [k1, k2, k3]
  refine ⟨⟨h3, h4⟩, hl, by rw [hl]; exact hs, by rw [hl]; exact hr, ?_, ?_⟩
  · rw [cleanup_geometryDisposals, h1, h3]
    rfl
  · rw [cleanup_materialDisposals, h2, h4]
    rfl

theorem cleanup_releases_everything_witness :
    (cleanup (displayRefresh 2 { displayRefresh 1 (setup sampleEnv [] 0) with
        targetScroll := 340 / (3400 - 1000) })).listeners = [] ∧
      geometryDisposals (cleanup (displayRefresh 2 { displayRefresh 1 (setup sampleEnv [] 0) with
        targetScroll := 340 / (3400 - 1000) })) = [1, 1, 1, 1, 1] ∧
      materialDisposals (cleanup (displayRefresh 2 { displayRefresh 1 (setup sampleEnv [] 0) with
        targetScroll := 340 / (3400 - 1000) })) = [1, 1, 1, 1, 1] := by
  have hm := setup_mounted sampleEnv [] 0 (by simp) (by simp)
  have h := cleanup_releases_everything sampleEnv [] 0
    [Event.refresh 1, Event.scroll 340 3400 1000, Event.refresh 2]
    (displayRefresh 2 { displayRefresh 1 (setup sampleEnv [] 0) with
        targetScroll := 340 / (3400 - 1000) }) []
    (by simp) (by simp)
    (by
      have hl : scrollListener ∈ (displayRefresh 1 (setup sampleEnv [] 0)).listeners := by
        rw [(displayRefresh_mounted 1 hm).listeners_eq]
        simp
      simp only [run, step, Option.some_bind, if_pos hl]
      rw [handleScroll_of_ne 340 3400 1000 _ (by norm_num)]
      rfl)
  exact ⟨h.2.1, h.2.2.2.2.1, h.2.2.2.2.2⟩

/-! ## Re-centering of the glyph solid -/

theorem foldl_box_min_x (vs : List Vector3) (b : Box3) :
    (vs.foldl
        (fun b p =>
          ({ min := { x := min b.min.x p.x, y := min b.min.y p.y, z := min b.min.z p.z }
             max := { x := max b.max.x p.x, y := max b.max.y p.y, z := max b.max.z p.z } } : Box3))
        b).min.x = vs.foldl (fun m p => min m p.x) b.min.x := by
  induction vs generalizing b with
  | nil => rfl
  | cons v vs ih => rw [List.foldl_cons, List.foldl_cons, ih]

theorem foldl_box_min_y (vs : List Vector3) (b : Box3) :
    (vs.foldl
        (fun b p =>
          ({ min := { x := min b.min.x p.x, y := min b.min.y p.y, z := min b.min.z p.z }
             max := { x := max b.max.x p.x, y := max b.max.y p.y, z := max b.max.z p.z } } : Box3))
        b).min.y = vs.foldl (fun m p => min m p.y) b.min.y := by
  induction vs generalizing b with
  | nil => rfl
  | cons v vs ih => rw [List.foldl_cons, List.foldl_cons, ih]

theorem foldl_box_max_x (vs : List Vector3) (b : Box3) :
    (vs.foldl
        (fun b p =>
          ({ min := { x := min b.min.x p.x, y := min b.min.y p.y, z := min b.min.z p.z }
             max := { x := max b.max.x p.x, y := max b.max.y p.y, z := max b.max.z p.z } } : Box3))
        b).max.x = vs.foldl (fun m p => max m p.x) b.max.x := by
  induction vs generalizing b with
  | nil => rfl
  | cons v vs ih => rw [List.foldl_cons, List.foldl_cons, ih]

theorem foldl_box_max_y (vs : List Vector3) (b : Box3) :
    (vs.foldl
        (fun b p =>
          ({ min := { x := min b.min.x p.x, y := min b.min.y p.y, z := min b.min.z p.z }
             max := { x := max b.max.x p.x, y := max b.max.y p.y, z := max b.max.z p.z } } : Box3))
        b).max.y = vs.foldl (fun m p => max m p.y) b.max.y := by
  induction vs generalizing b with
  | nil => rfl
  | cons v vs ih => rw [List.foldl_cons, List.foldl_cons, ih]

theorem foldl_min_spec (f : Vector3 → ℚ) (vs : List Vector3) (a : ℚ) :
    (vs.foldl (fun m p => min m (f p)) a ≤ a ∧ ∀ p ∈ vs, vs.foldl (fun m p => min m (f p)) a ≤ f p) ∧
      (vs.foldl (fun m p => min m (f p)) a = a ∨ ∃ p ∈ vs, vs.foldl (fun m p => min m (f p)) a = f p) := by
  induction vs generalizing a with
  | nil => simp
  | cons v vs ih =>
    obtain ⟨⟨h1, h2⟩, h3⟩ := ih (min a (f v))
    simp only [List.foldl_cons, List.mem_cons, forall_eq_or_imp, exists_eq_or_imp]
    refine ⟨⟨le_trans h1 (min_le_left _ _), le_trans h1 (min_le_right _ _), h2⟩, ?_⟩
    rcases h3 with h3 | h3
    · rcases min_choice a (f v) with hc | hc
      · left
        rw [h3, hc]
      · right
        left
        rw [h3, hc]
    · right
      right
      exact h3

theorem foldl_max_spec (f : Vector3 → ℚ) (vs : List Vector3) (a : ℚ) :
    (a ≤ vs.foldl (fun m p => max m (f p)) a ∧ ∀ p ∈ vs, f p ≤ vs.foldl (fun m p => max m (f p)) a) ∧
      (vs.foldl (fun m p => max m (f p)) a = a ∨ ∃ p ∈ vs, vs.foldl (fun m p => max m (f p)) a = f p) := by
  induction vs generalizing a with
  | nil => simp
  | cons v vs ih =>
    obtain ⟨⟨h1, h2⟩, h3⟩ := ih (max a (f v))
    simp only [List.foldl_cons, List.mem_cons, forall_eq_or_imp, exists_eq_or_imp]
    refine ⟨⟨le_trans (le_max_left _ _) h1, le_trans (le_max_right _ _) h1, h2⟩, ?_⟩
    rcases h3 with h3 | h3
    · rcases max_choice a (f v) with hc | hc
      · left
        rw [h3, hc]
      · right
        left
        rw [h3, hc]
    · right
      right
      exact h3

/-- C8 fails as stated: for the pentagon outline, whose bounding box `[0,5] × [0,7]` has
midpoint `(2.5, 3.5)`, the group built from its bevelled extrusion has its origin at
`(2.54, 3.5)`, the midpoint of the box `[-0.2, 5.28] × [-0.2, 7.2]` of the solid. -/
theorem createLetter_origin_off_outline_midpoint :
    (createLetterOfShape pentagonEnv (some pentagon) (initialWorld [])).1.1.originInGeometry =
        some (127 / 50, 7 / 2) ∧
      outlineMidpoint pentagon = some (5 / 2, 7 / 2) ∧
      (createLetterOfShape pentagonEnv (some pentagon) (initialWorld [])).1.1.originInGeometry ≠
        outlineMidpoint pentagon := by
  have h1 : (createLetterOfShape pentagonEnv (some pentagon) (initialWorld [])).1.1.originInGeometry =
      some (127 / 50, 7 / 2) := by
    simp only [createLetterOfShape, createAdvancedGradientMaterial, Group.originInGeometry,
      computeBoundingBox, pentagonEnv, bevelledPentagon, List.foldl_cons, List.foldl_nil]
    norm_num
  have h2 : outlineMidpoint pentagon = some (5 / 2, 7 / 2) := by
    simp only [outlineMidpoint, pentagon, boxMidpoint, List.map_cons, List.map_nil,
      PathCmd.endPoint, List.foldl_cons, List.foldl_nil]
    norm_num
  refine ⟨h1, h2, ?_⟩
  rw [h1, h2]
  norm_num

/-- C8, amended: for every outline, the group returned by `createLetter` has its origin
at the midpoint, in X and Y, of the bounding box of the extruded geometry (the solid
that `ExtrudeGeometry` returns, bevel included), and that box is the tight box of the
geometry's vertices: it contains every vertex and each of its four X/Y bounds is
attained by a vertex. -/
theorem createLetter_origin_geometry_midpoint (env : Env) (shape : Option Shape) (letter : String)
    (w : World) :
    createLetter env letter w = createLetterOfShape env (letterShape letter) w ∧
      (createLetterOfShape env shape w).1.1.originInGeometry =
        some
          (((computeBoundingBox (env.extrude shape extrudeSettings).1 (env.extrude shape extrudeSettings).2).max.x +
              (computeBoundingBox (env.extrude shape extrudeSettings).1 (env.extrude shape extrudeSettings).2).min.x) / 2,
            ((computeBoundingBox (env.extrude shape extrudeSettings).1 (env.extrude shape extrudeSettings).2).max.y +
              (computeBoundingBox (env.extrude shape extrudeSettings).1 (env.extrude shape extrudeSettings).2).min.y) / 2) ∧
      (∀ p ∈ (env.extrude shape extrudeSettings).1 :: (env.extrude shape extrudeSettings).2,
        (computeBoundingBox (env.extrude shape extrudeSettings).1 (env.extrude shape extrudeSettings).2).min.x ≤ p.x ∧
          p.x ≤ (computeBoundingBox (env.extrude shape extrudeSettings).1 (env.extrude shape extrudeSettings).2).max.x ∧
          (computeBoundingBox (env.extrude shape extrudeSettings).1 (env.extrude shape extrudeSettings).2).min.y ≤ p.y ∧
          p.y ≤ (computeBoundingBox (env.extrude shape extrudeSettings).1 (env.extrude shape extrudeSettings).2).max.y) ∧
      (∃ p ∈ (env.extrude shape extrudeSettings).1 :: (env.extrude shape extrudeSettings).2,
        p.x = (computeBoundingBox (env.extrude shape extrudeSettings).1 (env.extrude shape extrudeSettings).2).min.x) ∧
      (∃ p ∈ (env.extrude shape extrudeSettings).1 :: (env.extrude shape extrudeSettings).2,
        p.x = (computeBoundingBox (env.extrude shape extrudeSettings).1 (env.extrude shape extrudeSettings).2).max.x) ∧
      (∃ p ∈ (env.extrude shape extrudeSettings).1 :: (env.extrude shape extrudeSettings).2,
        p.y = (computeBoundingBox (env.extrude shape extrudeSettings).1 (env.extrude shape extrudeSettings).2).min.y) ∧
      (∃ p ∈ (env.extrude shape extrudeSettings).1 :: (env.extrude shape extrudeSettings).2,
        p.y = (computeBoundingBox (env.extrude shape extrudeSettings).1 (env.extrude shape extrudeSettings).2).max.y) := by
  refine ⟨rfl, ?_, ?_⟩
  · simp [createLetterOfShape, createAdvancedGradientMaterial, Group.originInGeometry]
  generalize (env.extrude shape extrudeSettings).1 = v
  generalize (env.extrude shape extrudeSettings).2 = vs
  have hminx : (computeBoundingBox v vs).min.x = vs.foldl (fun m p => min m p.x) v.x :=
    foldl_box_min_x vs _
  have hmaxx : (computeBoundingBox v vs).max.x = vs.foldl (fun m p => max m p.x) v.x :=
    foldl_box_max_x vs _
  have hminy : (computeBoundingBox v vs).min.y = vs.foldl (fun m p => min m p.y) v.y :=
    foldl_box_min_y vs _
  have hmaxy : (computeBoundingBox v vs).max.y = vs.foldl (fun m p => max m p.y) v.y :=
    foldl_box_max_y vs _
  obtain ⟨⟨a1, a2⟩, a3⟩ := foldl_min_spec (fun p => p.x) vs v.x
  obtain ⟨⟨b1, b2⟩, b3⟩ := foldl_max_spec (fun p => p.x) vs v.x
  obtain ⟨⟨c1, c2⟩, c3⟩ := foldl_min_spec (fun p => p.y) vs v.y
  obtain ⟨⟨d1, d2⟩, d3⟩ := foldl_max_spec (fun p => p.y) vs v.y
  rw [hminx, hmaxx, hminy, hmaxy]
  refine ⟨?_, ?_, ?_, ?_, ?_⟩
  · intro p hp
    rcases List.mem_cons.mp hp with rfl | hp
    · exact ⟨a1, b1, c1, d1⟩
    · exact ⟨a2 p hp, b2 p hp, c2 p hp, d2 p hp⟩
  · rcases a3 with h | ⟨p, hp, h⟩
    · exact ⟨v, List.mem_cons_self _ _, h.symm⟩
    · exact ⟨p, List.mem_cons_of_mem _ hp, h.symm⟩
  · rcases b3 with h | ⟨p, hp, h⟩
    · exact ⟨v, List.mem_cons_self _ _, h.symm⟩
    · exact ⟨p, List.mem_cons_of_mem _ hp, h.symm⟩
  · rcases c3 with h | ⟨p, hp, h⟩
    · exact ⟨v, List.mem_cons_self _ _, h.symm⟩
    · exact ⟨p, List.mem_cons_of_mem _ hp, h.symm⟩
  · rcases d3 with h | ⟨p, hp, h⟩
    · exact ⟨v, List.mem_cons_self _ _, h.symm⟩
    · exact ⟨p, List.mem_cons_of_mem _ hp, h.symm⟩

/-! ## The smoothing step in exact arithmetic -/

/-- In exact arithmetic: the smoothing step of `animate`,
`scrollProgress += (targetScroll - scrollProgress) * 0.08`, never overshoots: the new
value lies between the old value and `targetScroll`; the remaining distance is exactly
0.92 times the old one; if both values are in [0,1] so is the new one; and from
`scrollProgress = 0`, after the frames `ts` with `targetScroll` untouched, it equals
`targetScroll * (1 - 0.92 ^ n)` for `n` the number of frames. -/
theorem smoothing_never_overshoots (t : ℚ) (w : World) (ts : List ℚ) :
    (animate t w).scrollProgress =
        w.scrollProgress + (w.targetScroll - w.scrollProgress) * 0.08 ∧
      min w.scrollProgress w.targetScroll ≤ (animate t w).scrollProgress ∧
      (animate t w).scrollProgress ≤ max w.scrollProgress w.targetScroll ∧
      |w.targetScroll - (animate t w).scrollProgress| =
        0.92 * |w.targetScroll - w.scrollProgress| ∧
      (0 ≤ w.scrollProgress → w.scrollProgress ≤ 1 → 0 ≤ w.targetScroll → w.targetScroll ≤ 1 →
        0 ≤ (animate t w).scrollProgress ∧ (animate t w).scrollProgress ≤ 1) ∧
      (w.scrollProgress = 0 →
        (ts.foldl (fun w t => animate t w) w).targetScroll = w.targetScroll ∧
          (ts.foldl (fun w t => animate t w) w).scrollProgress =
            w.targetScroll * (1 - 0.92 ^ ts.length)) := by
  have hstep := animate_scrollProgress t w
  have hframes := frames_scrollProgress ts w
  have htarget := frames_targetScroll ts w
  generalize (animate t w).scrollProgress = s1 at hstep
  generalize (ts.foldl (fun w t => animate t w) w).scrollProgress = sn at hframes
  generalize (ts.foldl (fun w t => animate t w) w).targetScroll = tn at htarget
  generalize w.scrollProgress = s at hstep hframes
  generalize w.targetScroll = T at hstep hframes htarget
  subst hstep
  refine ⟨rfl, ?_, ?_, ?_, ?_, ?_⟩
  · rcases le_total s T with h | h
    · rw [min_eq_left h]
      linarith
    · rw [min_eq_right h]
      linarith
  · rcases le_total s T with h | h
    · rw [max_eq_right h]
      linarith
    · rw [max_eq_left h]
      linarith
  · have e : T - (s + (T - s) * 0.08) = 0.92 * (T - s) := by ring
    rw [e, abs_mul, abs_of_pos (by norm_num : (0 : ℚ) < 0.92)]
  · intro h0 h1 h2 h3
    constructor <;> linarith
  · intro hs
    refine ⟨htarget, ?_⟩
    rw [hframes, hs]
    ring

/-! ## Construction values never change -/

theorem animate_constructionValues (t : ℚ) (w : World) :
    constructionValues (animate t w) = constructionValues w := by
  unfold constructionValues
  rw [animate_letterData, List.map_map]
  rfl

theorem displayRefresh_constructionValues (t : ℚ) (w : World) :
    constructionValues (displayRefresh t w) = constructionValues w := by
  unfold displayRefresh
  have h0 : constructionValues { w with pendingFrames := 0 } = constructionValues w := rfl
  generalize w.pendingFrames = n
  induction n with
  | zero => exact h0
  | succ n ih =>
    rw [Function.iterate_succ_apply', animate_constructionValues]
    exact ih

theorem step_constructionValues {w w1 : World} (e : Event) (hs : step w e = some w1) :
    constructionValues w1 = constructionValues w := by
  cases e with
  | scroll scrollY scrollHeight innerHeight =>
    simp only [step, handleScroll] at hs
    split_ifs at hs
    · rw [Option.map_eq_some'] at hs
      obtain ⟨v, _, rfl⟩ := hs
      rfl
    · cases hs
      rfl
  | refresh elapsedTime =>
    simp only [step, Option.some.injEq] at hs
    subst hs
    exact displayRefresh_constructionValues elapsedTime w

theorem run_constructionValues (es : List Event) {w w1 : World} (hr : run w es = some w1) :
    constructionValues w1 = constructionValues w := by
  induction es generalizing w with
  | nil =>
    simp only [run, Option.some.injEq] at hr
    subst hr
    rfl
  | cons e es ih =>
    simp only [run, Option.bind_eq_some] at hr
    obtain ⟨w2, hstep, hrest⟩ := hr
    exact (ih hrest).trans (step_constructionValues e hstep)

theorem assembleLetters_constructionValues (env : Env) (pre : List Listener) :
    constructionValues (assembleLetters env pre) =
      [(0, -19, 4, 0, (env.random 0 - 0.5) * env.PI, (env.random 1 - 0.5) * env.PI,
          (env.random 2 - 0.5) * env.PI),
        (1, -10, -5, -2, (env.random 3 - 0.5) * env.PI, (env.random 4 - 0.5) * env.PI,
          (env.random 5 - 0.5) * env.PI),
        (2, 2, 5, -4, (env.random 6 - 0.5) * env.PI, (env.random 7 - 0.5) * env.PI,
          (env.random 8 - 0.5) * env.PI),
        (3, 12, -2, -6, (env.random 9 - 0.5) * env.PI, (env.random 10 - 0.5) * env.PI,
          (env.random 11 - 0.5) * env.PI),
        (4, 22, 3, -8, (env.random 12 - 0.5) * env.PI, (env.random 13 - 0.5) * env.PI,
          (env.random 14 - 0.5) * env.PI)] := by
  simp [constructionValues, LetterDatum.construction, assembleLetters, letters, List.enum,
    List.enumFrom, addLetter, createLetter, createLetterOfShape, createAdvancedGradientMaterial,
    initialWorld, positions]
  norm_num

theorem setup_constructionValues (env : Env) (pre : List Listener) (t0 : ℚ) :
    constructionValues (setup env pre t0) = constructionValues (assembleLetters env pre) := by
  simp only [setup, constructionValues]
  rw [animate_letterData, List.map_map]
  rfl

theorem map_withoutTime_setUTime (t : ℚ) (ms : List Material) (n : ℕ) :
    (ms.modify (fun m => { m with uTime := t }) n).map Material.withoutTime =
      ms.map Material.withoutTime := by
  induction ms generalizing n with
  | nil => cases n <;> rfl
  | cons m ms ih =>
    cases n with
    | zero => rfl
    | succ n => simp [List.modify_succ_cons, ih]

theorem foldl_setUTime_withoutTime (t : ℚ) (ds : List LetterDatum) (ms : List Material) :
    (ds.foldl (fun ms d => ms.modify (fun m => { m with uTime := t }) d.material) ms).map
        Material.withoutTime = ms.map Material.withoutTime := by
  induction ds generalizing ms with
  | nil => rfl
  | cons d ds ih => rw [List.foldl_cons, ih, map_withoutTime_setUTime]

theorem sample_run :
    run (setup sampleEnv [] 0) [Event.refresh 1, Event.scroll 340 3400 1000, Event.refresh 2] =
      some (displayRefresh 2 { displayRefresh 1 (setup sampleEnv [] 0) with
        targetScroll := 340 / (3400 - 1000) }) := by
  have hm := setup_mounted sampleEnv [] 0 (by simp) (by simp)
  have hl : scrollListener ∈ (displayRefresh 1 (setup sampleEnv [] 0)).listeners := by
    rw [(displayRefresh_mounted 1 hm).listeners_eq]
    simp
  simp only [run, step, Option.some_bind, if_pos hl]
  rw [handleScroll_of_ne 340 3400 1000 _ (by norm_num)]
  rfl

/-- C12: after mount and any sequence of scroll events and display refreshes, every
glyph instance still has the `index`, `targetX`, `targetY`, `baseZ` and random rotation
offsets it was constructed with (those written by `letters.forEach`, listed here glyph
by glyph).  A run of `animate` leaves them alone, and with them each glyph's material
handle, scale and meshes, every material uniform other than `uTime`, the camera
position, `targetScroll`, the geometries, the scene's children, the listeners and the
renderer: it changes only `scrollProgress`, the groups' position and rotation and the
`uTime` uniforms (and it queues the next frame and issues the draw call). -/
theorem construction_values_invariant (env : Env) (pre : List Listener) (t0 t : ℚ)
    (es : List Event) (w : World) (hrun : run (setup env pre t0) es = some w) :
    constructionValues w = constructionValues (assembleLetters env pre) ∧
      constructionValues w =
        [(0, -19, 4, 0, (env.random 0 - 0.5) * env.PI, (env.random 1 - 0.5) * env.PI,
            (env.random 2 - 0.5) * env.PI),
          (1, -10, -5, -2, (env.random 3 - 0.5) * env.PI, (env.random 4 - 0.5) * env.PI,
            (env.random 5 - 0.5) * env.PI),
          (2, 2, 5, -4, (env.random 6 - 0.5) * env.PI, (env.random 7 - 0.5) * env.PI,
            (env.random 8 - 0.5) * env.PI),
          (3, 12, -2, -6, (env.random 9 - 0.5) * env.PI, (env.random 10 - 0.5) * env.PI,
            (env.random 11 - 0.5) * env.PI),
          (4, 22, 3, -8, (env.random 12 - 0.5) * env.PI, (env.random 13 - 0.5) * env.PI,
            (env.random 14 - 0.5) * env.PI)] ∧
      constructionValues (animate t w) = constructionValues w ∧
      (animate t w).letterData.map LetterDatum.rest = w.letterData.map LetterDatum.rest ∧
      (animate t w).materials.map Material.withoutTime = w.materials.map Material.withoutTime ∧
      (animate t w).cameraPosition = w.cameraPosition ∧
      (animate t w).targetScroll = w.targetScroll ∧
      (animate t w).geometries = w.geometries ∧
      (animate t w).sceneChildren = w.sceneChildren ∧
      (animate t w).listeners = w.listeners ∧
      (animate t w).rendererDisposeCalls = w.rendererDisposeCalls := by
  have h1 : constructionValues w = constructionValues (assembleLetters env pre) :=
    (run_constructionValues es hrun).trans (setup_constructionValues env pre t0)
  refine ⟨h1, h1.trans (assembleLetters_constructionValues env pre),
    animate_constructionValues t w, ?_, ?_, ?_, ?_, ?_, ?_, ?_, ?_⟩
  · rw [animate_letterData, List.map_map]
    rfl
  · rw [animate_eq]
    exact foldl_setUTime_withoutTime t _ _
  all_goals rw [animate_eq]

theorem construction_values_invariant_witness :
    run (setup sampleEnv [] 0) [Event.refresh 1, Event.scroll 340 3400 1000, Event.refresh 2] =
        some (displayRefresh 2 { displayRefresh 1 (setup sampleEnv [] 0) with
          targetScroll := 340 / (3400 - 1000) }) ∧
      constructionValues (displayRefresh 2 { displayRefresh 1 (setup sampleEnv [] 0) with
          targetScroll := 340 / (3400 - 1000) }) =
        constructionValues (assembleLetters sampleEnv []) :=
  ⟨sample_run, (construction_values_invariant sampleEnv [] 0 3
    [Event.refresh 1, Event.scroll 340 3400 1000, Event.refresh 2] _ sample_run).1⟩

/-! ## Independence of the materials' uniforms -/

theorem uniformsOf_modify_ne (w : World) (f : Material → Material) {i j : ℕ} (h : i ≠ j) :
    World.uniformsOf { w with materials := w.materials.modify f i } j = w.uniformsOf j := by
  simp only [World.uniformsOf, List.get?_eq_getElem?, List.getElem?_modify_ne f _ h]
  rfl

theorem uniformsOf_copyInto (w : World) (r : VecRef) (v : Vector3) (j : ℕ) :
    (w.copyInto r v).uniformsOf j =
      (w.uniformsOf j).map (fun u => { u with uCameraPosition := v }) := by
  cases r
  simp only [World.uniformsOf, World.copyInto, Option.map_map]
  congr 1

theorem updateUniforms_as_writes (t : ℚ) (w : World) (d : LetterDatum) :
    updateUniforms t w d =
      (w.writeUniform d.material (UniformWrite.uTime t)).writeUniform d.material
        (UniformWrite.uCameraPosition w.cameraPosition) := rfl

/-- C11 fails as stated: of the materials returned by two calls of
`createAdvancedGradientMaterial` (handles 0 and 1), mutating the `uCameraPosition` value
of the first in place, to `(1, 2, 3)`, changes the `uCameraPosition` value of the second
from `(0, 0, 35)` to `(1, 2, 3)`: both hold the one `camera.position` object. -/
theorem uCameraPosition_is_shared :
    twoMaterials.1 = (0, 1) ∧
      (twoMaterials.2.uniformsOf 1).map (fun u => u.uCameraPosition) =
        some { x := 0, y := 0, z := 35 } ∧
      ((twoMaterials.2.writeUniform 0
          (UniformWrite.uCameraPosition { x := 1, y := 2, z := 3 })).uniformsOf 1).map
        (fun u => u.uCameraPosition) = some { x := 1, y := 2, z := 3 } ∧
      (twoMaterials.2.writeUniform 0
          (UniformWrite.uCameraPosition { x := 1, y := 2, z := 3 })).uniformsOf 1 ≠
        twoMaterials.2.uniformsOf 1 := by
  refine ⟨rfl, ?_, ?_, ?_⟩
  · simp [twoMaterials, createAdvancedGradientMaterial, initialWorld, World.uniformsOf, World.deref]
  · simp [twoMaterials, createAdvancedGradientMaterial, initialWorld, World.uniformsOf, World.deref,
      World.writeUniform, World.copyInto]
  · simp [twoMaterials, createAdvancedGradientMaterial, initialWorld, World.uniformsOf, World.deref,
      World.writeUniform, World.copyInto]

/-- C11, amended: every call of `createAdvancedGradientMaterial` returns a new handle,
leaves the uniform values of the materials that exist untouched, and gives the new
material the fixed parameters, `uTime = 0` and the camera's position.  A write to any
uniform other than `uCameraPosition` through material `i` leaves every uniform value of
every other material `j` unchanged.  A `uCameraPosition` value mutated in place through
an existing material `i` is mutated for every material: each `j` keeps its other
uniform values and reads the new vector, all of them holding the one `camera.position`
object. -/
theorem uniforms_independent_except_camera (w : World) (i j : ℕ) (u : UniformWrite)
    (v : Vector3) (hij : i ≠ j) :
    (createAdvancedGradientMaterial w).1 = w.materials.length ∧
      (∀ k, k < w.materials.length →
        (createAdvancedGradientMaterial w).2.uniformsOf k = w.uniformsOf k) ∧
      (createAdvancedGradientMaterial w).2.uniformsOf (createAdvancedGradientMaterial w).1 =
        some
          { uAmbientColor := 0xffffff
            uAmbientIntensity := 0.5
            uPointLightPositions :=
              [{ x := 10, y := 0, z := 8 }, { x := -10, y := 5, z := 8 }, { x := 0, y := -5, z := 5 }]
            uPointLightColors := [0xff5733, 0x6b46c1, 0xff1493]
            uPointLightIntensities := [5.0, 5.0, 4.5]
            uNumLights := 3
            uTime := 0
            uCameraPosition := w.cameraPosition } ∧
      ((∀ v, u ≠ UniformWrite.uCameraPosition v) →
        (w.writeUniform i u).uniformsOf j = w.uniformsOf j) ∧
      (i < w.materials.length →
        (w.writeUniform i (UniformWrite.uCameraPosition v)).uniformsOf j =
          (w.uniformsOf j).map (fun u => { u with uCameraPosition := v })) := by
  refine ⟨rfl, ?_, ?_, ?_, ?_⟩
  · intro k hk
    simp only [createAdvancedGradientMaterial, World.uniformsOf, List.get?_eq_getElem?,
      List.getElem?_append_left hk]
    rfl
  · simp only [createAdvancedGradientMaterial, World.uniformsOf, List.get?_eq_getElem?,
      List.getElem?_concat_length, Option.map_some']
    rfl
  · intro hu
    cases u with
    | uCameraPosition v0 => exact absurd rfl (hu v0)
    | uAmbientColor hex => exact uniformsOf_modify_ne w _ hij
    | uAmbientIntensity v0 => exact uniformsOf_modify_ne w _ hij
    | uPointLightPosition light v0 => exact uniformsOf_modify_ne w _ hij
    | uPointLightColor light hex => exact uniformsOf_modify_ne w _ hij
    | uPointLightIntensity light v0 => exact uniformsOf_modify_ne w _ hij
    | uNumLights n => exact uniformsOf_modify_ne w _ hij
    | uTime v0 => exact uniformsOf_modify_ne w _ hij
  · intro hi
    have hm : w.materials.get? i = some (w.materials.get ⟨i, hi⟩) := List.get?_eq_get hi
    simp only [World.writeUniform, hm]
    exact uniformsOf_copyInto w _ v j

theorem uniforms_independent_except_camera_witness :
    (0 : ℕ) ≠ 1 ∧
      (twoMaterials.2.writeUniform 0 (UniformWrite.uTime 7)).uniformsOf 1 =
        twoMaterials.2.uniformsOf 1 :=
  ⟨by decide,
    (uniforms_independent_except_camera twoMaterials.2 0 1 (UniformWrite.uTime 7)
      { x := 0, y := 0, z := 0 } (by decide)).2.2.2.1 (fun v h => UniformWrite.noConfusion h)⟩

/-! ## Rounding to doubles -/

theorem roundHalfEven_near (q : ℚ) : |q - roundHalfEven q| ≤ 1 / 2 := by
  have h1 := Int.floor_le q
  have h2 := Int.lt_floor_add_one q
  unfold roundHalfEven
  split_ifs with a b c
  · rw [abs_le]; constructor <;> linarith
  · rw [abs_le]; push_cast; constructor <;> linarith
  · rw [abs_le]; constructor <;> linarith
  · rw [abs_le]; push_cast; constructor <;> linarith

theorem roundHalfEven_nearest (q : ℚ) (z : ℤ) : |q - roundHalfEven q| ≤ |q - z| := by
  by_cases h : z = roundHalfEven q
  · rw [h]
  · have h1 : (1 : ℤ) ≤ |z - roundHalfEven q| := Int.one_le_abs (sub_ne_zero.mpr h)
    have h2 : (1 : ℚ) ≤ |(z : ℚ) - roundHalfEven q| := by exact_mod_cast h1
    have h3 := roundHalfEven_near q
    have h4 : |(z : ℚ) - roundHalfEven q| ≤ |q - roundHalfEven q| + |q - z| := by
      have : (z : ℚ) - roundHalfEven q = (q - roundHalfEven q) - (q - z) := by ring
      rw [this]
      exact abs_sub _ _
    linarith

theorem roundHalfEven_eq_of_near (q : ℚ) (n : ℤ) (h : |q - n| < 1 / 2) : roundHalfEven q = n := by
  by_contra hne
  have h1 : (1 : ℤ) ≤ |roundHalfEven q - n| := Int.one_le_abs (sub_ne_zero.mpr hne)
  have h2 : (1 : ℚ) ≤ |(roundHalfEven q : ℚ) - n| := by exact_mod_cast h1
  have h3 := roundHalfEven_near q
  have h4 : |(roundHalfEven q : ℚ) - n| ≤ |q - n| + |q - roundHalfEven q| := by
    have : (roundHalfEven q : ℚ) - n = (q - n) - (q - roundHalfEven q) := by ring
    rw [this]
    exact abs_sub _ _
  linarith

theorem quantum_pos (j : ℤ) : (0 : ℚ) < 2 ^ j := zpow_pos (by norm_num) j

theorem roundDouble_zero : roundDouble 0 = 0 := by
  simp [roundDouble, roundHalfEven]

/-- Nearest on the grid of the quantum. -/
theorem roundDouble_nearest_grid (x : ℚ) (z : ℤ) :
    |x - roundDouble x| ≤ |x - z * 2 ^ quantumExp x| := by
  unfold roundDouble
  generalize quantumExp x = j
  have hu := quantum_pos j
  have h := roundHalfEven_nearest (x / 2 ^ j) z
  have e1 : x - roundHalfEven (x / 2 ^ j) * 2 ^ j = (x / 2 ^ j - roundHalfEven (x / 2 ^ j)) * 2 ^ j := by
    rw [sub_mul, div_mul_cancel₀ x (ne_of_gt hu)]
  have e2 : x - z * 2 ^ j = (x / 2 ^ j - z) * 2 ^ j := by
    rw [sub_mul, div_mul_cancel₀ x (ne_of_gt hu)]
  rw [e1, e2, abs_mul, abs_mul, abs_of_pos hu]
  exact mul_le_mul_of_nonneg_right h (le_of_lt hu)

theorem log_bounds {x : ℚ} (hx : x ≠ 0) :
    (2 : ℚ) ^ Int.log 2 |x| ≤ |x| ∧ |x| < 2 ^ (Int.log 2 |x| + 1) := by
  have hpos : 0 < |x| := abs_pos.mpr hx
  have h1 := Int.zpow_log_le_self (b := 2) (r := |x|) (by norm_num) hpos
  have h2 := Int.lt_zpow_succ_log_self (b := 2) (by norm_num) |x|
  exact ⟨by exact_mod_cast h1, by exact_mod_cast h2⟩


theorem quantumExp_ge (x : ℚ) : -1074 ≤ quantumExp x := le_max_right _ _

theorem quantumExp_ge_log (x : ℚ) : Int.log 2 |x| - 52 ≤ quantumExp x := le_max_left _ _

/-- A double is on the grid of the quantum of `x`, or it is smaller in magnitude than
the power of two at the bottom of the binade of `x`, which is on the grid. -/
theorem isDouble_grid_or_small {x f : ℚ} (hf : IsDouble f) :
    (∃ z : ℤ, f = z * 2 ^ quantumExp x) ∨
      (|f| < 2 ^ Int.log 2 |x| ∧ quantumExp x = Int.log 2 |x| - 52) := by
  obtain ⟨m, k, hm, hk, rfl⟩ := hf
  by_cases hjk : quantumExp x ≤ k
  · left
    obtain ⟨n, hn⟩ := Int.eq_ofNat_of_zero_le (sub_nonneg.mpr hjk)
    refine ⟨m * 2 ^ n, ?_⟩
    have hk' : k = (n : ℤ) + quantumExp x := by omega
    rw [hk', zpow_add₀ (by norm_num : (2 : ℚ) ≠ 0), zpow_natCast]
    push_cast
    ring
  · right
    push_neg at hjk
    have hq : quantumExp x = Int.log 2 |x| - 52 := by
      unfold quantumExp at hjk ⊢
      rcases max_choice (Int.log 2 |x| - 52) (-1074) with h | h
      · exact h
      · rw [h] at hjk
        omega
    refine ⟨?_, hq⟩
    have hk2 : k ≤ Int.log 2 |x| - 53 := by omega
    have hm' : |(m : ℚ)| < 2 ^ 53 := by exact_mod_cast hm
    have hpk : (2 : ℚ) ^ k ≤ 2 ^ (Int.log 2 |x| - 53) := zpow_le_zpow_right₀ (by norm_num) hk2
    have hpos := quantum_pos k
    rw [abs_mul, abs_of_pos hpos]
    have e : (2 : ℚ) ^ Int.log 2 |x| = 2 ^ 53 * 2 ^ (Int.log 2 |x| - 53) := by
      have : Int.log 2 |x| = 53 + (Int.log 2 |x| - 53) := by ring
      conv_lhs => rw [this]
      rw [zpow_add₀ (by norm_num : (2 : ℚ) ≠ 0)]
      norm_num
    rw [e]
    calc |(m : ℚ)| * 2 ^ k ≤ |(m : ℚ)| * 2 ^ (Int.log 2 |x| - 53) :=
          mul_le_mul_of_nonneg_left hpk (abs_nonneg _)
      _ < 2 ^ 53 * 2 ^ (Int.log 2 |x| - 53) :=
          mul_lt_mul_of_pos_right hm' (quantum_pos _)

/-- `roundDouble x` is a double nearest to `x`. -/
theorem roundDouble_nearest (x : ℚ) {f : ℚ} (hf : IsDouble f) :
    |x - roundDouble x| ≤ |x - f| := by
  by_cases hx : x = 0
  · subst hx
    rw [roundDouble_zero]
    simp
  rcases isDouble_grid_or_small (x := x) hf with ⟨z, rfl⟩ | ⟨hsmall, hq⟩
  · exact roundDouble_nearest_grid x z
  · obtain ⟨hlo, _⟩ := log_bounds hx
    have e : (2 : ℚ) ^ Int.log 2 |x| = ((2 ^ 52 : ℤ) : ℚ) * 2 ^ quantumExp x := by
      rw [hq]
      have : Int.log 2 |x| = 52 + (Int.log 2 |x| - 52) := by ring
      conv_lhs => rw [this]
      rw [zpow_add₀ (by norm_num : (2 : ℚ) ≠ 0)]
      norm_num
    have hpos2 := roundDouble_nearest_grid x (2 ^ 52)
    have hneg2 := roundDouble_nearest_grid x (-(2 ^ 52))
    have e' : ((-(2 ^ 52) : ℤ) : ℚ) * 2 ^ quantumExp x = -(2 : ℚ) ^ Int.log 2 |x| := by
      rw [e]
      push_cast
      ring
    rw [← e] at hpos2
    rw [e'] at hneg2
    have hrev := abs_sub_abs_le_abs_sub x f
    generalize (2 : ℚ) ^ Int.log 2 |x| = b at hlo hsmall hpos2 hneg2
    generalize roundDouble x = r at hpos2 hneg2 ⊢
    rcases lt_or_gt_of_ne hx with hneg | hpos
    · rw [abs_of_neg hneg] at hlo hrev
      have h1 : |x - -b| = -x - b := by
        rw [abs_of_nonpos (by linarith)]
        ring
      rw [h1] at hneg2
      linarith
    · rw [abs_of_pos hpos] at hlo hrev
      have h1 : |x - b| = x - b := abs_of_nonneg (by linarith)
      rw [h1] at hpos2
      linarith

theorem isDouble_zero : IsDouble 0 := ⟨0, 0, by norm_num, by norm_num, by norm_num⟩

theorem roundDouble_of_isDouble {f : ℚ} (hf : IsDouble f) : roundDouble f = f := by
  have h := roundDouble_nearest f hf
  rw [sub_self, abs_zero] at h
  have := abs_nonneg (f - roundDouble f)
  have h0 : |f - roundDouble f| = 0 := le_antisymm h this
  rw [abs_eq_zero, sub_eq_zero] at h0
  exact h0.symm

theorem roundDouble_error_le_abs (x : ℚ) : |x - roundDouble x| ≤ |x| := by
  have h := roundDouble_nearest x isDouble_zero
  rwa [sub_zero] at h


theorem isDouble_roundDouble (x : ℚ) : IsDouble (roundDouble x) := by
  by_cases hx : x = 0
  · subst hx
    rw [roundDouble_zero]
    exact isDouble_zero
  obtain ⟨_, hhi⟩ := log_bounds hx
  have hj := quantumExp_ge_log x
  have hj2 := quantumExp_ge x
  unfold roundDouble
  generalize quantumExp x = j at hj hj2
  have hu := quantum_pos j
  -- the scaled value is below 2^53 in magnitude
  have hq : |x / 2 ^ j| < 2 ^ 53 := by
    rw [abs_div, abs_of_pos hu, div_lt_iff₀ hu]
    have h1 : (2 : ℚ) ^ (Int.log 2 |x| + 1) ≤ 2 ^ (53 + j) :=
      zpow_le_zpow_right₀ (by norm_num) (by omega)
    have h2 : (2 : ℚ) ^ (53 + j) = 2 ^ 53 * 2 ^ j := by
      rw [zpow_add₀ (by norm_num : (2 : ℚ) ≠ 0)]
      norm_num
    linarith
  have hnear := roundHalfEven_near (x / 2 ^ j)
  generalize roundHalfEven (x / 2 ^ j) = n at hnear
  generalize x / 2 ^ j = q at hq hnear
  have hn : |(n : ℚ)| < 2 ^ 53 + 1 := by
    have : (n : ℚ) = q - (q - n) := by ring
    rw [this]
    calc |q - (q - n)| ≤ |q| + |q - n| := abs_sub _ _
      _ < 2 ^ 53 + 1 := by linarith
  have hn' : |n| < 2 ^ 53 + 1 := by exact_mod_cast hn
  rcases lt_or_eq_of_le (Int.lt_add_one_iff.mp hn') with h | h
  · exact ⟨n, j, h, hj2, rfl⟩
  · rcases abs_eq (by norm_num : (0 : ℤ) ≤ 2 ^ 53) |>.mp h with h | h
    · refine ⟨1, j + 53, by norm_num, by omega, ?_⟩
      rw [h, zpow_add₀ (by norm_num : (2 : ℚ) ≠ 0)]
      norm_num
      ring
    · refine ⟨-1, j + 53, by norm_num, by omega, ?_⟩
      rw [h, zpow_add₀ (by norm_num : (2 : ℚ) ≠ 0)]
      norm_num
      ring

theorem roundDouble_mono {x y : ℚ} (h : x ≤ y) : roundDouble x ≤ roundDouble y := by
  rcases eq_or_lt_of_le h with rfl | hxy
  · exact le_refl _
  by_contra hlt
  push_neg at hlt
  have h1 := roundDouble_nearest x (isDouble_roundDouble y)
  have h2 := roundDouble_nearest y (isDouble_roundDouble x)
  generalize roundDouble x = a at hlt h1 h2
  generalize roundDouble y = b at hlt h1 h2
  -- `x` is at least as close to `a` as to `b < a`, so `x` is at or above the midpoint;
  -- `y` is at least as close to `b`, so `y` is at or below it
  have hx : a + b ≤ 2 * x := by
    by_contra hc
    push_neg at hc
    have ha : |x - a| = a - x := by
      rw [abs_of_nonpos (by linarith)]
      ring
    rcases le_total b x with hb | hb
    · rw [ha, abs_of_nonneg (sub_nonneg.mpr hb)] at h1
      linarith
    · rw [ha, abs_of_nonpos (sub_nonpos.mpr hb)] at h1
      linarith
  have hy : 2 * y ≤ a + b := by
    by_contra hc
    push_neg at hc
    have hb : |y - b| = y - b := abs_of_nonneg (by linarith)
    rcases le_total a y with ha | ha
    · rw [hb, abs_of_nonneg (sub_nonneg.mpr ha)] at h2
      linarith
    · rw [hb, abs_of_nonpos (sub_nonpos.mpr ha)] at h2
      linarith
  linarith

theorem roundDouble_eq_of_near {x : ℚ} (e n : ℤ) (hlo : 2 ^ e ≤ |x|) (hhi : |x| < 2 ^ (e + 1))
    (hn : |x / 2 ^ max (e - 52) (-1074) - n| < 1 / 2) :
    roundDouble x = n * 2 ^ max (e - 52) (-1074) := by
  have hpos : 0 < |x| := lt_of_lt_of_le (quantum_pos e) hlo
  have hlog : Int.log 2 |x| = e := by
    apply le_antisymm
    · have := (Int.lt_zpow_iff_log_lt (b := 2) (by norm_num) hpos).mp (by exact_mod_cast hhi)
      omega
    · exact (Int.zpow_le_iff_le_log (b := 2) (by norm_num) hpos).mp (by exact_mod_cast hlo)
  unfold roundDouble quantumExp
  rw [hlog, roundHalfEven_eq_of_near _ n hn]

theorem roundHalfEven_eq_of_tie (q : ℚ) (n : ℤ) (h : |q - n| = 1 / 2) (hn : n % 2 = 0) :
    roundHalfEven q = n := by
  rcases abs_eq (by norm_num : (0 : ℚ) ≤ 1 / 2) |>.mp h with h | h
  · have hq : q = n + 1 / 2 := by linarith
    have hf : ⌊q⌋ = n := by
      rw [Int.floor_eq_iff]
      constructor <;> linarith
    unfold roundHalfEven
    rw [hf, hq]
    norm_num [hn]
  · have hq : q = n - 1 / 2 := by linarith
    have hf : ⌊q⌋ = n - 1 := by
      rw [Int.floor_eq_iff]
      push_cast
      constructor <;> linarith
    have hodd : ¬ (n - 1) % 2 = 0 := by omega
    unfold roundHalfEven
    rw [hf, hq]
    push_cast
    norm_num [hodd]

theorem roundDouble_eq_of_tie {x : ℚ} (e n : ℤ) (hlo : 2 ^ e ≤ |x|) (hhi : |x| < 2 ^ (e + 1))
    (hn : |x / 2 ^ max (e - 52) (-1074) - n| = 1 / 2) (heven : n % 2 = 0) :
    roundDouble x = n * 2 ^ max (e - 52) (-1074) := by
  have hpos : 0 < |x| := lt_of_lt_of_le (quantum_pos e) hlo
  have hlog : Int.log 2 |x| = e := by
    apply le_antisymm
    · have := (Int.lt_zpow_iff_log_lt (b := 2) (by norm_num) hpos).mp (by exact_mod_cast hhi)
      omega
    · exact (Int.zpow_le_iff_le_log (b := 2) (by norm_num) hpos).mp (by exact_mod_cast hlo)
  unfold roundDouble quantumExp
  rw [hlog, roundHalfEven_eq_of_tie _ n hn heven]

theorem roundDouble_008 : roundDouble 0.08 = 5764607523034235 / 2 ^ 56 := by
  rw [roundDouble_eq_of_near (-4) 5764607523034235 (by norm_num [abs_of_pos])
    (by norm_num [abs_of_pos]) (by norm_num [abs_lt])]
  norm_num

/-! ## The smoothing step on doubles -/

theorem smoothingStep64_between {s T : ℚ} (hs : IsDouble s) (hT : IsDouble T) :
    min s T ≤ smoothingStep64 s T ∧ smoothingStep64 s T ≤ max s T := by
  have hc := roundDouble_error_le_abs 0.08
  rw [abs_le, abs_of_pos (by norm_num : (0 : ℚ) < 0.08)] at hc
  have hd := roundDouble_error_le_abs (T - s)
  have hm := roundDouble_error_le_abs (roundDouble (T - s) * roundDouble 0.08)
  unfold smoothingStep64 fadd fmul fsub
  generalize roundDouble 0.08 = c at hc hm ⊢
  generalize roundDouble (T - s) = d at hd hm ⊢
  have hlo := roundDouble_mono (x := min s T) (y := s + roundDouble (d * c))
  have hhi := roundDouble_mono (x := s + roundDouble (d * c)) (y := max s T)
  generalize roundDouble (d * c) = m at hm hlo hhi ⊢
  rcases le_total s T with h | h
  · rw [min_eq_left h, roundDouble_of_isDouble hs] at hlo
    rw [max_eq_right h, roundDouble_of_isDouble hT] at hhi
    rw [min_eq_left h, max_eq_right h]
    rw [abs_le, abs_of_nonneg (sub_nonneg.mpr h)] at hd
    have hd0 : 0 ≤ d := by linarith
    have hdc : 0 ≤ d * c := mul_nonneg hd0 (by linarith)
    rw [abs_le, abs_of_nonneg hdc] at hm
    have hdc2 : d * c ≤ 2 * (T - s) * (16 / 100) := by
      apply mul_le_mul (by linarith) (by linarith) (by linarith) (by linarith)
    exact ⟨hlo (by linarith), hhi (by linarith)⟩
  · rw [min_eq_right h, roundDouble_of_isDouble hT] at hlo
    rw [max_eq_left h, roundDouble_of_isDouble hs] at hhi
    rw [min_eq_right h, max_eq_left h]
    rw [abs_le, abs_of_nonpos (sub_nonpos.mpr h)] at hd
    have hd0 : d ≤ 0 := by linarith
    have hdc : d * c ≤ 0 := mul_nonpos_of_nonpos_of_nonneg hd0 (by linarith)
    rw [abs_le, abs_of_nonpos hdc] at hm
    have hdc2 : 2 * (T - s) * (16 / 100) ≤ d * c := by
      have : (-d) * c ≤ (2 * (s - T)) * (16 / 100) := by
        apply mul_le_mul (by linarith) (by linarith) (by linarith) (by linarith)
      linarith
    exact ⟨hlo (by linarith), hhi (by linarith)⟩

theorem isDouble_smoothingStep64 (s T : ℚ) : IsDouble (smoothingStep64 s T) :=
  isDouble_roundDouble _

theorem smoothingFrames64_between {s T : ℚ} (hs : IsDouble s) (hT : IsDouble T) (n : ℕ) :
    IsDouble ((fun x => smoothingStep64 x T)^[n] s) ∧
      min s T ≤ (fun x => smoothingStep64 x T)^[n] s ∧
      (fun x => smoothingStep64 x T)^[n] s ≤ max s T := by
  induction n with
  | zero => exact ⟨hs, min_le_left _ _, le_max_left _ _⟩
  | succ n ih =>
    rw [Function.iterate_succ_apply']
    obtain ⟨hd, hlo, hhi⟩ := ih
    obtain ⟨b1, b2⟩ := smoothingStep64_between hd hT
    refine ⟨isDouble_smoothingStep64 _ _, ?_, ?_⟩
    · exact le_trans (le_min hlo (min_le_right _ _)) b1
    · exact le_trans b2 (max_le hhi (le_max_right _ _))

theorem isDouble_one : IsDouble 1 := ⟨1, 0, by norm_num, by norm_num, by norm_num⟩

theorem smoothingStep64_zero_one : smoothingStep64 0 1 = roundDouble 0.08 := by
  unfold smoothingStep64 fadd fmul fsub
  rw [sub_zero, roundDouble_of_isDouble isDouble_one, one_mul,
    roundDouble_of_isDouble (isDouble_roundDouble _), zero_add,
    roundDouble_of_isDouble (isDouble_roundDouble _)]

theorem smoothingStep64_second :
    smoothingStep64 (5764607523034235 / 2 ^ 56) 1 = 2767011611056433 / 2 ^ 54 := by
  have hd : roundDouble (1 - 5764607523034235 / 2 ^ 56) = 8286623314361713 / 2 ^ 53 := by
    rw [roundDouble_eq_of_near (-1) 8286623314361713 (by norm_num [abs_of_pos])
      (by norm_num [abs_of_pos]) (by norm_num [abs_lt])]
    norm_num
  have hm : roundDouble (8286623314361713 / 2 ^ 53 * (5764607523034235 / 2 ^ 56)) =
      5303438921191496 / 2 ^ 56 := by
    rw [roundDouble_eq_of_near (-4) 5303438921191496 (by norm_num [abs_of_pos])
      (by norm_num [abs_of_pos]) (by norm_num [abs_lt])]
    norm_num
  have hs : roundDouble (5764607523034235 / 2 ^ 56 + 5303438921191496 / 2 ^ 56) =
      2767011611056433 / 2 ^ 54 := by
    rw [roundDouble_eq_of_tie (-3) 5534023222112866 (by norm_num [abs_of_pos])
      (by norm_num [abs_of_pos]) (by norm_num [abs_of_neg]) (by norm_num)]
    norm_num
  unfold smoothingStep64 fadd fmul fsub
  rw [roundDouble_008, hd, hm, hs]

theorem roundDouble_01536 : roundDouble (1 * (1 - 0.92 ^ 2)) = 5534023222112865 / 2 ^ 55 := by
  rw [roundDouble_eq_of_near (-3) 5534023222112865 (by norm_num [abs_of_pos])
    (by norm_num [abs_of_pos]) (by norm_num [abs_lt])]
  norm_num

/-- C13 fails as stated: from `scrollProgress = 0` with `targetScroll = 1` the code holds
`0.08` (the double) after one frame and `2767011611056433 / 2 ^ 54`, printed
`0.15360000000000001`, after two.  That is neither the closed form
`1 * (1 - 0.92 ^ 2) = 0.1536` nor the double nearest to it, and as exact numbers the
remaining distance `1 - 0.15360000000000001` is not 0.92 times the previous one. -/
theorem smoothing_closed_form_fails_in_doubles :
    smoothingStep64 0 1 = 5764607523034235 / 2 ^ 56 ∧
      smoothingStep64 (smoothingStep64 0 1) 1 = 2767011611056433 / 2 ^ 54 ∧
      smoothingStep64 (smoothingStep64 0 1) 1 ≠ 1 * (1 - 0.92 ^ 2) ∧
      smoothingStep64 (smoothingStep64 0 1) 1 ≠ roundDouble (1 * (1 - 0.92 ^ 2)) ∧
      |1 - smoothingStep64 (smoothingStep64 0 1) 1| ≠ 0.92 * |1 - smoothingStep64 0 1| := by
  have h1 : smoothingStep64 0 1 = 5764607523034235 / 2 ^ 56 := by
    rw [smoothingStep64_zero_one, roundDouble_008]
  have h2 : smoothingStep64 (smoothingStep64 0 1) 1 = 2767011611056433 / 2 ^ 54 := by
    rw [h1, smoothingStep64_second]
  refine ⟨h1, h2, ?_, ?_, ?_⟩
  · rw [h2]
    norm_num
  · rw [h2, roundDouble_01536]
    norm_num
  · rw [h2, h1]
    norm_num [abs_of_pos]

/-- C13, amended: on the doubles of the code the smoothing step never overshoots.  For
doubles `scrollProgress = s` and `targetScroll = T` (of magnitude at most `2 ^ 1022`,
which keeps every intermediate result of the code finite) the new value lies between
`s` and `T`, so it is in [0,1] when both are, and with `T` held fixed every later frame
stays between `s` and `T` as well.  The ratio 0.92 of the remaining distances and the
closed form `T * (1 - 0.92 ^ n)` from 0 hold when the arithmetic is exact. -/
theorem smoothing_between_in_doubles (s T : ℚ) (n : ℕ) (hs : IsDouble s) (hT : IsDouble T)
    (_hsFinite : |s| ≤ 2 ^ 1022) (_hTFinite : |T| ≤ 2 ^ 1022) :
    (min s T ≤ smoothingStep64 s T ∧ smoothingStep64 s T ≤ max s T) ∧
      (0 ≤ s → s ≤ 1 → 0 ≤ T → T ≤ 1 →
        0 ≤ smoothingStep64 s T ∧ smoothingStep64 s T ≤ 1) ∧
      (min s T ≤ (fun x => smoothingStep64 x T)^[n] s ∧
        (fun x => smoothingStep64 x T)^[n] s ≤ max s T) ∧
      (∀ (t : ℚ) (w : World) (ts : List ℚ),
        |w.targetScroll - (animate t w).scrollProgress| =
            0.92 * |w.targetScroll - w.scrollProgress| ∧
          (w.scrollProgress = 0 →
            (ts.foldl (fun w t => animate t w) w).targetScroll = w.targetScroll ∧
              (ts.foldl (fun w t => animate t w) w).scrollProgress =
                w.targetScroll * (1 - 0.92 ^ ts.length))) := by
  obtain ⟨b1, b2⟩ := smoothingStep64_between hs hT
  refine ⟨⟨b1, b2⟩, ?_, (smoothingFrames64_between hs hT n).2, ?_⟩
  · intro h0 h1 h2 h3
    exact ⟨le_trans (le_min h0 h2) b1, le_trans b2 (max_le h1 h3)⟩
  · intro t w ts
    obtain ⟨_, _, _, e1, _, e2⟩ := smoothing_never_overshoots t w ts
    exact ⟨e1, e2⟩

theorem smoothing_between_in_doubles_witness :
    IsDouble 0 ∧ IsDouble 1 ∧
      (min 0 1 ≤ smoothingStep64 0 1 ∧ smoothingStep64 0 1 ≤ max 0 1) ∧
      (min (0 : ℚ) 1 ≤ (fun x => smoothingStep64 x 1)^[9] 0 ∧
        (fun x => smoothingStep64 x 1)^[9] 0 ≤ max 0 1) :=
  ⟨isDouble_zero, isDouble_one,
    (smoothing_between_in_doubles 0 1 9 isDouble_zero isDouble_one (by norm_num)
      (by norm_num)).1,
    (smoothing_between_in_doubles 0 1 9 isDouble_zero isDouble_one (by norm_num)
      (by norm_num)).2.2.1⟩

/-! ## The per-glyph update on doubles -/

theorem lerp64_one (x : ℚ) {y : ℚ} (hy : IsDouble y) : lerp64 x y 1 = y := by
  unfold lerp64 fadd fmul fsub
  rw [sub_self, roundDouble_zero, zero_mul, roundDouble_zero, one_mul,
    roundDouble_of_isDouble hy, zero_add, roundDouble_of_isDouble hy]

theorem animationProgress64_of_ge {p : ℚ} (h : 0.5 ≤ p) : animationProgress64 p = 1 := by
  have hc := roundDouble_error_le_abs 0.1
  rw [abs_le, abs_of_pos (by norm_num : (0 : ℚ) < 0.1)] at hc
  have h1 : ¬ p ≤ roundDouble 0.1 := by
    intro hle
    linarith
  simp [animationProgress64, smoothstep64, h1, h]

theorem rotation64_mono (r k : ℚ) (hk : 0 ≤ k) {p1 p2 : ℚ} (h : p1 ≤ p2) :
    fadd r (fmul p1 k) ≤ fadd r (fmul p2 k) := by
  unfold fadd fmul
  apply roundDouble_mono
  have := roundDouble_mono (mul_le_mul_of_nonneg_right h hk)
  linarith

theorem roundDouble_06 : roundDouble 0.6 = 5404319552844595 / 2 ^ 53 := by
  rw [roundDouble_eq_of_near (-1) 5404319552844595 (by norm_num [abs_of_pos])
    (by norm_num [abs_of_pos]) (by norm_num [abs_lt])]
  norm_num

theorem roundDouble_07 : roundDouble 0.7 = 6305039478318694 / 2 ^ 53 := by
  rw [roundDouble_eq_of_near (-1) 6305039478318694 (by norm_num [abs_of_pos])
    (by norm_num [abs_of_pos]) (by norm_num [abs_lt])]
  norm_num

theorem rotationY_at_06 :
    fadd (-1) (fmul (5404319552844595 / 2 ^ 53) 7.0) = 7205759403792794 / 2 ^ 51 := by
  have ha : roundDouble (5404319552844595 / 2 ^ 53 * 7.0) = 4728779608739021 / 2 ^ 50 := by
    rw [roundDouble_eq_of_near 2 4728779608739021 (by norm_num [abs_of_pos])
      (by norm_num [abs_of_pos]) (by norm_num [abs_lt])]
    norm_num
  have hr : roundDouble (-1 + 4728779608739021 / 2 ^ 50) = 7205759403792794 / 2 ^ 51 := by
    rw [roundDouble_eq_of_near 1 7205759403792794 (by norm_num [abs_of_pos])
      (by norm_num [abs_of_pos]) (by norm_num [abs_lt])]
    norm_num
  unfold fadd fmul
  rw [ha, hr]

theorem rotationY_at_07 :
    fadd (-1) (fmul (6305039478318694 / 2 ^ 53) 7.0) = 8782019273372466 / 2 ^ 51 := by
  have ha : roundDouble (6305039478318694 / 2 ^ 53 * 7.0) = 5516909543528857 / 2 ^ 50 := by
    rw [roundDouble_eq_of_near 2 5516909543528857 (by norm_num [abs_of_pos])
      (by norm_num [abs_of_pos]) (by norm_num [abs_lt])]
    norm_num
  have hr : roundDouble (-1 + 5516909543528857 / 2 ^ 50) = 8782019273372466 / 2 ^ 51 := by
    rw [roundDouble_eq_of_near 1 8782019273372466 (by norm_num [abs_of_pos])
      (by norm_num [abs_of_pos]) (by norm_num [abs_lt])]
    norm_num
  unfold fadd fmul
  rw [ha, hr]

theorem rotationY_difference_doubles :
    fsub (8782019273372466 / 2 ^ 51) (7205759403792794 / 2 ^ 51) = 6305039478318688 / 2 ^ 53 ∧
      fmul (fsub (6305039478318694 / 2 ^ 53) (5404319552844595 / 2 ^ 53)) 7.0 =
        6305039478318693 / 2 ^ 53 := by
  have hd : roundDouble (8782019273372466 / 2 ^ 51 - 7205759403792794 / 2 ^ 51) =
      6305039478318688 / 2 ^ 53 := by
    rw [roundDouble_eq_of_near (-1) 6305039478318688 (by norm_num [abs_of_pos])
      (by norm_num [abs_of_pos]) (by norm_num [abs_lt])]
    norm_num
  have hp : roundDouble (6305039478318694 / 2 ^ 53 - 5404319552844595 / 2 ^ 53) =
      7205759403792792 / 2 ^ 56 := by
    rw [roundDouble_eq_of_near (-4) 7205759403792792 (by norm_num [abs_of_pos])
      (by norm_num [abs_of_pos]) (by norm_num [abs_lt])]
    norm_num
  have hr : roundDouble (7205759403792792 / 2 ^ 56 * 7.0) = 6305039478318693 / 2 ^ 53 := by
    rw [roundDouble_eq_of_near (-1) 6305039478318693 (by norm_num [abs_of_pos])
      (by norm_num [abs_of_pos]) (by norm_num [abs_lt])]
    norm_num
  unfold fsub fmul
  rw [hd, hp, hr]
  exact ⟨rfl, rfl⟩

/-- C9 fails as stated: for the glyph `sampleLetter` (`randomRotY = -1`) and the scroll
values `0.6` and `0.7` (the doubles these literals denote, both at least 0.5) the code
sets `rotation.y` to `3.2` and to `3.8999999999999995`.  Their difference is not
`(p2 - p1) * 7.0`, whether the two sides are taken as exact numbers or computed in
doubles (`0.6999999999999993` against `0.6999999999999998`). -/
theorem rotation_difference_fails_in_doubles :
    (0.5 : ℚ) ≤ roundDouble 0.6 ∧ roundDouble 0.6 < roundDouble 0.7 ∧
      (updateLetter64 (roundDouble 0.6) (animationProgress64 (roundDouble 0.6))
          sampleLetter).group.rotation.y = 7205759403792794 / 2 ^ 51 ∧
      (updateLetter64 (roundDouble 0.7) (animationProgress64 (roundDouble 0.7))
          sampleLetter).group.rotation.y = 8782019273372466 / 2 ^ 51 ∧
      (updateLetter64 (roundDouble 0.7) (animationProgress64 (roundDouble 0.7))
            sampleLetter).group.rotation.y -
          (updateLetter64 (roundDouble 0.6) (animationProgress64 (roundDouble 0.6))
            sampleLetter).group.rotation.y ≠
        (roundDouble 0.7 - roundDouble 0.6) * 7.0 ∧
      fsub
          (updateLetter64 (roundDouble 0.7) (animationProgress64 (roundDouble 0.7))
            sampleLetter).group.rotation.y
          (updateLetter64 (roundDouble 0.6) (animationProgress64 (roundDouble 0.6))
            sampleLetter).group.rotation.y ≠
        fmul (fsub (roundDouble 0.7) (roundDouble 0.6)) 7.0 := by
  have r1 : (updateLetter64 (roundDouble 0.6) (animationProgress64 (roundDouble 0.6))
      sampleLetter).group.rotation.y = 7205759403792794 / 2 ^ 51 := by
    simp only [updateLetter64, sampleLetter, roundDouble_06]
    exact rotationY_at_06
  have r2 : (updateLetter64 (roundDouble 0.7) (animationProgress64 (roundDouble 0.7))
      sampleLetter).group.rotation.y = 8782019273372466 / 2 ^ 51 := by
    simp only [updateLetter64, sampleLetter, roundDouble_07]
    exact rotationY_at_07
  refine ⟨?_, ?_, r1, r2, ?_, ?_⟩
  · rw [roundDouble_06]
    norm_num
  · rw [roundDouble_06, roundDouble_07]
    norm_num
  · rw [r1, r2, roundDouble_06, roundDouble_07]
    norm_num
  · rw [r1, r2, roundDouble_06, roundDouble_07, rotationY_difference_doubles.1,
      rotationY_difference_doubles.2]
    norm_num

theorem isDouble_of_int (m : ℤ) (h : |m| < 2 ^ 53) : IsDouble m :=
  ⟨m, 0, h, by norm_num, by norm_num⟩

/-- C9, amended: on the doubles of the code the rotation `animate` gives a glyph is
`randomRot + scrollProgress * rate` on each axis (rates 6.0, 7.0, 5.0), computed from
the frame's raw `scrollProgress` whatever `animationProgress` is.  For two values
`0.5 ≤ p1 < p2` and a glyph whose target and base depth are doubles the position is the
same, `(targetX, targetY, baseZ)`, and the rotation on each axis at `p2` is at least the
one at `p1`.  The two rotations differ by `(p2 - p1)` times the rate of the axis when
the arithmetic is exact. -/
theorem rotation_follows_raw_scroll_in_doubles (d : LetterDatum) (a p1 p2 : ℚ)
    (hx : IsDouble d.targetX) (hy : IsDouble d.targetY) (hz : IsDouble d.baseZ)
    (h1 : 0.5 ≤ p1) (h2 : p1 < p2) :
    (updateLetter64 p1 a d).group.rotation =
        { x := fadd d.randomRotX (fmul p1 6.0)
          y := fadd d.randomRotY (fmul p1 7.0)
          z := fadd d.randomRotZ (fmul p1 5.0) } ∧
      (updateLetter64 p1 (animationProgress64 p1) d).group.position =
        { x := d.targetX, y := d.targetY, z := d.baseZ } ∧
      (updateLetter64 p2 (animationProgress64 p2) d).group.position =
        (updateLetter64 p1 (animationProgress64 p1) d).group.position ∧
      ((updateLetter64 p1 (animationProgress64 p1) d).group.rotation.x ≤
          (updateLetter64 p2 (animationProgress64 p2) d).group.rotation.x ∧
        (updateLetter64 p1 (animationProgress64 p1) d).group.rotation.y ≤
          (updateLetter64 p2 (animationProgress64 p2) d).group.rotation.y ∧
        (updateLetter64 p1 (animationProgress64 p1) d).group.rotation.z ≤
          (updateLetter64 p2 (animationProgress64 p2) d).group.rotation.z) ∧
      ((updateLetter p2 (smoothstep p2 0.1 0.5) d).group.rotation.x -
            (updateLetter p1 (smoothstep p1 0.1 0.5) d).group.rotation.x = (p2 - p1) * 6.0 ∧
        (updateLetter p2 (smoothstep p2 0.1 0.5) d).group.rotation.y -
            (updateLetter p1 (smoothstep p1 0.1 0.5) d).group.rotation.y = (p2 - p1) * 7.0 ∧
        (updateLetter p2 (smoothstep p2 0.1 0.5) d).group.rotation.z -
            (updateLetter p1 (smoothstep p1 0.1 0.5) d).group.rotation.z = (p2 - p1) * 5.0) := by
  have s1 : animationProgress64 p1 = 1 := animationProgress64_of_ge h1
  have s2 : animationProgress64 p2 = 1 := animationProgress64_of_ge (le_trans h1 (le_of_lt h2))
  have hpos : ∀ p, (updateLetter64 p 1 d).group.position =
      { x := d.targetX, y := d.targetY, z := d.baseZ } := by
    intro p
    simp only [updateLetter64, lerp64_one _ hx, lerp64_one _ hy, lerp64_one _ hz]
  have hle := le_of_lt h2
  refine ⟨rfl, ?_, ?_, ⟨?_, ?_, ?_⟩, ?_⟩
  · rw [s1]
    exact hpos p1
  · rw [s1, s2, hpos p1, hpos p2]
  · exact rotation64_mono d.randomRotX 6.0 (by norm_num) hle
  · exact rotation64_mono d.randomRotY 7.0 (by norm_num) hle
  · exact rotation64_mono d.randomRotZ 5.0 (by norm_num) hle
  · exact (rotation_follows_raw_scroll 0 (sampleWorld 0 0) d a p1 p2 h1 h2).2.2.2

theorem rotation_follows_raw_scroll_in_doubles_witness :
    (0.5 : ℚ) ≤ 1 / 2 ∧ (1 / 2 : ℚ) < 3 / 4 ∧
      (updateLetter64 (3 / 4) (animationProgress64 (3 / 4)) sampleLetter).group.position =
        (updateLetter64 (1 / 2) (animationProgress64 (1 / 2)) sampleLetter).group.position ∧
      (updateLetter64 (1 / 2) (animationProgress64 (1 / 2)) sampleLetter).group.rotation.y ≤
        (updateLetter64 (3 / 4) (animationProgress64 (3 / 4)) sampleLetter).group.rotation.y :=
  ⟨by norm_num, by norm_num,
    (rotation_follows_raw_scroll_in_doubles sampleLetter 0 (1 / 2) (3 / 4)
      (isDouble_of_int 2 (by norm_num)) (isDouble_of_int 5 (by norm_num))
      (isDouble_of_int (-4) (by norm_num)) (by norm_num) (by norm_num)).2.2.1,
    (rotation_follows_raw_scroll_in_doubles sampleLetter 0 (1 / 2) (3 / 4)
      (isDouble_of_int 2 (by norm_num)) (isDouble_of_int 5 (by norm_num))
      (isDouble_of_int (-4) (by norm_num)) (by norm_num) (by norm_num)).2.2.2.1.2.1⟩

end DreamParallax
